import Mathlib

/-!
# A verification of the CacheStrategy replacement policies

This file gives a shallow embedding, in Lean 4, of the cache replacement
policies of the CacheStrategy C++ library — LRU (`KLruCache`), LRU-K
(`KLruKCache`), LFU with aging (`KLfuCache`) and ARC (`KArcCache` with its
`ArcLruPart` and `ArcLfuPart` halves) — together with proofs and refutations
of the behavioural properties stated in the library's specification.

Keys and values are both instantiated at `Nat` (the C++ classes are templates;
`Key()`/`Value()` value-initialisation becomes `0`).  The intrusive doubly
linked lists of the source are embedded as Lean lists together with the
key-indexed hash maps they back: a `std::unordered_map<Key, NodePtr>` plus its
node list becomes a single association list ordered as the C++ list is.
`int` counters that can go negative (`curTotalNum_`, `curAverageNum_`) are
embedded as `Int`; counters that stay non-negative on every path
(sizes, capacities, frequencies, access counts) are embedded as `Nat`.
-/

set_option maxRecDepth 20000

/-! ## Association-list primitives

`alookup` is `unordered_map::find`, `aerase` is erasure of the (first)
binding of a key, `aupdate` mutates the payload behind a key in place (the
C++ code mutates the node that both the map and the list point to), and
`akeys` lists the keys.  The C++ maps hold at most one binding per key;
`NodupK` states that well-formedness for the embedding. -/

def alookup {β : Type} (k : Nat) : List (Nat × β) → Option β
  | [] => none
  | (a, b) :: t => if a = k then some b else alookup k t

def aerase {β : Type} (k : Nat) : List (Nat × β) → List (Nat × β)
  | [] => []
  | (a, b) :: t => if a = k then t else (a, b) :: aerase k t

def aupdate {β : Type} (k : Nat) (f : β → β) : List (Nat × β) → List (Nat × β)
  | [] => []
  | (a, b) :: t => if a = k then (a, f b) :: t else (a, b) :: aupdate k f t

def akeys {β : Type} (l : List (Nat × β)) : List Nat := l.map Prod.fst

def NodupK {β : Type} (l : List (Nat × β)) : Prop := (akeys l).Nodup

/-! ## The value-coherence invariant

`AllVal val k vn l` says that every binding of key `k` in the association
list `l` carries the value `vn` (under the payload projection `val`).  It is
the invariant behind put-get coherence: once `put(k, vn)` has run, every
operation other than another `put` of `k` preserves it. -/

def AllVal {β : Type} (val : β → Nat) (k vn : Nat) (l : List (Nat × β)) : Prop :=
  ∀ p ∈ l, p.1 = k → val p.2 = vn

/-! ## `KLruCache` — the plain LRU policy (src/lib/KLruCache.h)

The intrusive list runs `dummyHead → least recent → … → most recent →
dummyTail`: `insertNode` inserts in front of `dummyTail` and
`evictLeastRecent` removes `dummyHead_->next_`.  The state embeds the node
list as `entries`, ordered least-recent first, fused with the `nodeMap_`
index (key of each pair).  The `capacity_` field is a C++ `int`; `put`
rejects `capacity_ <= 0`, which on the non-negative embedding is
`capacity = 0`.  Note the class has **no ghost list**: `evictLeastRecent`
erases the victim from `nodeMap_` and drops the node. -/

namespace KLruCache

structure State where
  capacity : Nat
  entries : List (Nat × Nat)
  deriving Repr, DecidableEq

def init (capacity : Nat) : State := ⟨capacity, []⟩

/-- `evictLeastRecent`: detach `dummyHead_->next_` and erase its key. -/
def evictLeastRecent (s : State) : State :=
  { s with entries := s.entries.tail }

/-- `addNewNode`: evict when `nodeMap_.size() >= capacity_`, then insert
at the most-recent end and index the key. -/
def addNewNode (k v : Nat) (s : State) : State :=
  let s1 := if s.entries.length ≥ s.capacity then evictLeastRecent s else s
  { s1 with entries := s1.entries ++ [(k, v)] }

/-- `put`: no-op below capacity 1; update-and-refresh an existing key, else
`addNewNode`. -/
def put (k v : Nat) (s : State) : State :=
  if s.capacity = 0 then s
  else
    match alookup k s.entries with
    | some _ => { s with entries := aerase k s.entries ++ [(k, v)] }
    | none => addNewNode k v s

/-- `bool get(Key, Value&)`: on a hit, move the node to the most-recent end
and return its value. -/
def get (k : Nat) (s : State) : Option Nat × State :=
  match alookup k s.entries with
  | some v => (some v, { s with entries := aerase k s.entries ++ [(k, v)] })
  | none => (none, s)

/-- `Value get(Key)`: value-initialise (`0`), call the bool overload, return
whatever it left in `value`. -/
def getValue (k : Nat) (s : State) : Nat × State :=
  ((get k s).1.getD 0, (get k s).2)

/-- `remove`: unconditional erase of the node and its index entry. -/
def remove (k : Nat) (s : State) : State :=
  { s with entries := aerase k s.entries }

/-- Operations a client can issue against a `KLruCache`. -/
inductive Op where
  | put (k v : Nat)
  | get (k : Nat)
  | remove (k : Nat)
  deriving Repr, DecidableEq

def step (op : Op) (s : State) : State :=
  match op with
  | .put k v => put k v s
  | .get k => (get k s).2
  | .remove k => remove k s

def run (ops : List Op) (s : State) : State := ops.foldl (fun s op => step op s) s

end KLruCache

/-! ## `KLruKCache` — the LRU-K admission policy (src/lib/KLruCache.h)

Inherits the main cache from `KLruCache`; keeps an inner
`KLruCache<Key, size_t>` of access history, and `historyValueMap_` with the
pending value of each not-yet-admitted key. -/

namespace KLruKCache

structure State where
  main : KLruCache.State
  historyList : KLruCache.State
  historyValueMap : List (Nat × Nat)
  k : Nat
  deriving Repr, DecidableEq

def init (capacity historyCapacity k : Nat) : State :=
  ⟨KLruCache.init capacity, KLruCache.init historyCapacity, [], k⟩

/-- `historyValueMap_[key] = value`: insert or assign. -/
def aset (k v : Nat) (l : List (Nat × Nat)) : List (Nat × Nat) :=
  match alookup k l with
  | some _ => aupdate k (fun _ => v) l
  | none => l ++ [(k, v)]

/-- `KLruKCache::put`: probe the main cache (a recency-mutating `get`);
update in place when admitted, otherwise bump the history counter, record
the pending value, and admit once the counter reaches `k_`. -/
def put (key v : Nat) (s : State) : State :=
  match KLruCache.get key s.main with
  | (some _, main') => { s with main := KLruCache.put key v main' }
  | (none, _) =>
    let (h, hist1) := KLruCache.getValue key s.historyList
    let historyCount := h + 1
    let hist2 := KLruCache.put key historyCount hist1
    let pend := aset key v s.historyValueMap
    if historyCount ≥ s.k then
      { s with
        main := KLruCache.put key v s.main
        historyList := KLruCache.remove key hist2
        historyValueMap := aerase key pend }
    else
      { s with historyList := hist2, historyValueMap := pend }

/-- `KLruKCache::get`: probe the main cache, bump the history counter either
way; on a main miss with the counter at `k_` and a pending value recorded,
admit the pending value and return it, else report the miss (the C++
function then returns the value-initialised default). -/
def get (key : Nat) (s : State) : Option Nat × State :=
  match KLruCache.get key s.main with
  | (some v, main') =>
    let (h, hist1) := KLruCache.getValue key { s with main := main' }.historyList
    let hist2 := KLruCache.put key (h + 1) hist1
    (some v, { s with main := main', historyList := hist2 })
  | (none, _) =>
    let (h, hist1) := KLruCache.getValue key s.historyList
    let historyCount := h + 1
    let hist2 := KLruCache.put key historyCount hist1
    if historyCount ≥ s.k then
      match alookup key s.historyValueMap with
      | some storedValue =>
        (some storedValue,
         { s with
           main := KLruCache.put key storedValue s.main
           historyList := KLruCache.remove key hist2
           historyValueMap := aerase key s.historyValueMap })
      | none => (none, { s with historyList := hist2 })
    else (none, { s with historyList := hist2 })

/-- Operations a client can issue against a `KLruKCache`. -/
inductive Op where
  | put (k v : Nat)
  | get (k : Nat)
  deriving Repr, DecidableEq

def step (op : Op) (s : State) : State :=
  match op with
  | .put k v => put k v s
  | .get k => (get k s).2

def run (ops : List Op) (s : State) : State := ops.foldl (fun s op => step op s) s

end KLruKCache

/-! ## `KLfuCache` — the LFU policy with aging (src/lib/KLfuCache.h)

`nodeMap_` becomes an association list (in `unordered_map` iteration order =
insertion order here), each node carrying its `value` and `freq`.
`freqToFreqList_` maps a frequency to the keys of the nodes in that bucket's
`FreqList`, front first (`addNode` appends at the tail, `getFirstNode` reads
the head).  Buckets are never erased by this class, so empty bucket lists
persist; a bucket that was never created is observationally an empty one
(`updateMinFreq` skips both, and any path dereferencing an absent bucket's
null `FreqList*` would crash rather than return — such paths are not
reachable from the API because bucket 1 is created by the first `put`).
`minFreq_` is initialised to `INT8_MAX` (127), the sentinel `updateMinFreq`
scans from.  `curTotalNum_`/`curAverageNum_` are C++ `int`s and become
`Int`, divided with `Int.tdiv`, which truncates toward zero as C++ `int`
division does (on the non-negative totals reached in the claims this also
coincides with the `int`-to-`size_t` promotion C++ performs against
`nodeMap_.size()`). -/

namespace KLfuCache

structure LfuNode where
  value : Nat
  freq : Nat
  deriving Repr, DecidableEq

structure State where
  capacity : Nat
  minFreq : Nat
  maxAverageNum : Nat
  curAverageNum : Int
  curTotalNum : Int
  nodeMap : List (Nat × LfuNode)
  freqToFreqList : List (Nat × List Nat)
  deriving Repr, DecidableEq

/-- The constructor: `minFreq_(INT8_MAX)`, zeroed counters, empty maps. -/
def init (capacity maxAverageNum : Nat) : State :=
  ⟨capacity, 127, maxAverageNum, 0, 0, [], []⟩

/-- Bucket access: an absent bucket reads as the empty list. -/
def bucketGet (f : Nat) (s : List (Nat × List Nat)) : List Nat :=
  (alookup f s).getD []

/-- `FreqList::addNode` on bucket `f` (appends at the list tail), creating
the bucket as `addToFreqList` does when absent. -/
def bucketAppend (f k : Nat) (s : List (Nat × List Nat)) : List (Nat × List Nat) :=
  match alookup f s with
  | some _ => aupdate f (fun b => b ++ [k]) s
  | none => s ++ [(f, [k])]

/-- `FreqList::removeNode` of the node of key `k` from bucket `f`. -/
def bucketRemove (f k : Nat) (s : List (Nat × List Nat)) : List (Nat × List Nat) :=
  aupdate f (fun b => b.erase k) s

/-- `updateMinFreq`: scan the bucket index for the smallest non-empty
bucket, starting from the `INT8_MAX` sentinel; a scan that never goes below
the sentinel ends at `minFreq_ = 1`. -/
def updateMinFreq (s : State) : State :=
  let m := s.freqToFreqList.foldl (fun acc p => if p.2 ≠ [] then min acc p.1 else acc) 127
  { s with minFreq := if m = 127 then 1 else m }

/-- `handleOverMaxAverageNum`: on a non-empty map, shift every node down by
`maxAverageNum_ / 2` (floored at 1), repositioning it from its old bucket to
the tail of its new one, then recompute `minFreq_`. -/
def handleOverMaxAverageNum (s : State) : State :=
  if s.nodeMap = [] then s
  else
    let d := s.maxAverageNum / 2
    let newFreq : LfuNode → Nat := fun n => if n.freq - d < 1 then 1 else n.freq - d
    let buckets := s.nodeMap.foldl
      (fun acc p => bucketAppend (newFreq p.2) p.1 (bucketRemove p.2.freq p.1 acc))
      s.freqToFreqList
    let s1 := { s with
      nodeMap := s.nodeMap.map (fun p => (p.1, (⟨p.2.value, newFreq p.2⟩ : LfuNode)))
      freqToFreqList := buckets }
    updateMinFreq s1

/-- `addFreqNum`: count one access, refresh the running average
(`curTotalNum_ / nodeMap_.size()`, 0 on empty), rescale when it exceeds
`maxAverageNum_`. -/
def addFreqNum (s : State) : State :=
  let t := s.curTotalNum + 1
  let avg : Int := if s.nodeMap.length = 0 then 0 else t.tdiv (s.nodeMap.length : Int)
  let s1 := { s with curTotalNum := t, curAverageNum := avg }
  if avg > (s.maxAverageNum : Int) then handleOverMaxAverageNum s1 else s1

/-- `decreaseFreqNum`: subtract an evicted node's frequency and refresh the
average. -/
def decreaseFreqNum (num : Nat) (s : State) : State :=
  let t := s.curTotalNum - num
  let avg : Int := if s.nodeMap.length = 0 then 0 else t.tdiv (s.nodeMap.length : Int)
  { s with curTotalNum := t, curAverageNum := avg }

/-- `getInternal` on the node of key `k` (already looked up, fields as `n`):
move it one bucket up, advance `minFreq_` when its old bucket was the
min-frequency one and is now empty, then count the access. -/
def getInternal (k : Nat) (n : LfuNode) (s : State) : State :=
  let n' : LfuNode := { n with freq := n.freq + 1 }
  let s1 := { s with
    nodeMap := aupdate k (fun _ => n') s.nodeMap
    freqToFreqList := bucketAppend n'.freq k (bucketRemove n.freq k s.freqToFreqList) }
  let s2 :=
    if n'.freq - 1 = s1.minFreq ∧ bucketGet (n'.freq - 1) s1.freqToFreqList = [] then
      { s1 with minFreq := s1.minFreq + 1 }
    else s1
  addFreqNum s2

/-- `kickOut`: read the first node of bucket `minFreq_` — the head sentinel's
successor, which on an empty bucket is the tail sentinel, a default node
with `key = Key() = 0` and `freq = 1` — detach it, erase its key, and
subtract its frequency. -/
def kickOut (s : State) : State :=
  match bucketGet s.minFreq s.freqToFreqList with
  | [] =>
    decreaseFreqNum 1 { s with nodeMap := aerase 0 s.nodeMap }
  | k0 :: _ =>
    let n0 := (alookup k0 s.nodeMap).getD ⟨0, s.minFreq⟩
    decreaseFreqNum n0.freq
      { s with
        nodeMap := aerase k0 s.nodeMap
        freqToFreqList := bucketRemove n0.freq k0 s.freqToFreqList }

/-- `putInternal`: evict when `nodeMap_.size() == capacity_`, insert the new
node at frequency 1, count the access, and clamp `minFreq_` to 1. -/
def putInternal (k v : Nat) (s : State) : State :=
  let s1 := if s.nodeMap.length = s.capacity then kickOut s else s
  let s2 := { s1 with
    nodeMap := s1.nodeMap ++ [(k, ⟨v, 1⟩)]
    freqToFreqList := bucketAppend 1 k s1.freqToFreqList }
  let s3 := addFreqNum s2
  { s3 with minFreq := min s3.minFreq 1 }

/-- `put`: no-op at capacity 0; on a hit overwrite the value and run the
`getInternal` bookkeeping, else `putInternal`. -/
def put (k v : Nat) (s : State) : State :=
  if s.capacity = 0 then s
  else
    match alookup k s.nodeMap with
    | some n =>
      getInternal k { n with value := v }
        { s with nodeMap := aupdate k (fun _ => { n with value := v }) s.nodeMap }
    | none => putInternal k v s

/-- `bool get(Key, Value&)`: a hit returns the node's value and runs
`getInternal`; a miss touches nothing. -/
def get (k : Nat) (s : State) : Option Nat × State :=
  match alookup k s.nodeMap with
  | some n => (some n.value, getInternal k n s)
  | none => (none, s)

/-- `purge`: clear `nodeMap_` and `freqToFreqList_` — and nothing else. -/
def purge (s : State) : State :=
  { s with nodeMap := [], freqToFreqList := [] }

/-- Operations a client can issue against a `KLfuCache`. -/
inductive Op where
  | put (k v : Nat)
  | get (k : Nat)
  | purge
  deriving Repr, DecidableEq

def step (op : Op) (s : State) : State :=
  match op with
  | .put k v => put k v s
  | .get k => (get k s).2
  | .purge => purge s

def run (ops : List Op) (s : State) : State := ops.foldl (fun s op => step op s) s

end KLfuCache

/-! ## `ArcLruPart` — the recency half of ARC (src/lib/KArcCache/KArcLruPart.h)

`mainHead_` is the most-recent end (`addToFront` inserts right after it;
`evictLeastRecent` takes `mainTail_->prev_`), so `main` is ordered
most-recent first.  The ghost list is pushed at its head and
`removeOldestGhost` pops at its tail, so `ghost` is newest-ghost first.
Nodes carry `value` and `accessCount` (constructed at 1). -/

namespace ArcCache

structure ArcNode where
  value : Nat
  accessCount : Nat
  deriving Repr, DecidableEq

/-- The `ArcNode(key, value)` constructor: `accessCount_(1)`. -/
def mkArcNode (v : Nat) : ArcNode := ⟨v, 1⟩

end ArcCache

namespace ArcLruPart

open ArcCache

structure State where
  capacity : Nat
  ghostCapacity : Nat
  transformThreshold : Nat
  main : List (Nat × ArcNode)
  ghost : List (Nat × ArcNode)
  deriving Repr, DecidableEq

def init (capacity transformThreshold : Nat) : State :=
  ⟨capacity, capacity, transformThreshold, [], []⟩

/-- `removeOldestGhost`: drop the ghost at `ghostTail_->prev_` (a no-op on
an empty ghost list) and unindex its key. -/
def removeOldestGhost (s : State) : State :=
  match s.ghost.getLast? with
  | none => s
  | some _ => { s with ghost := s.ghost.dropLast }

/-- `evictLeastRecent`: detach `mainTail_->prev_` (no-op when the main list
is empty), enforce the ghost capacity, push the victim — access count reset
to 1 — at the ghost head, and unindex it from the main cache. -/
def evictLeastRecent (s : State) : State :=
  match s.main.getLast? with
  | none => s
  | some (k0, n0) =>
    let s1 := { s with main := s.main.dropLast }
    let s2 := if s1.ghost.length ≥ s1.ghostCapacity then removeOldestGhost s1 else s1
    { s2 with ghost := (k0, { n0 with accessCount := 1 }) :: s2.ghost }

/-- `addNewNode`: evict when `mainCache_.size() >= capacity_`, then index
and push the fresh node at the main head. -/
def addNewNode (k v : Nat) (s : State) : State :=
  let s1 := if s.main.length ≥ s.capacity then evictLeastRecent s else s
  { s1 with main := (k, mkArcNode v) :: s1.main }

/-- `put`: `false` at capacity 0; overwrite-and-refresh an existing key
(`updateExistingNode` does not touch the access count), else `addNewNode`. -/
def put (k v : Nat) (s : State) : Bool × State :=
  if s.capacity = 0 then (false, s)
  else
    match alookup k s.main with
    | some n => (true, { s with main := (k, { n with value := v }) :: aerase k s.main })
    | none => (true, addNewNode k v s)

/-- `get`: on a hit, `updateNodeAccess` moves the node to the front and
increments the count, and `shouldTransform` reports
`count ≥ transformThreshold_` on the incremented count. -/
def get (k : Nat) (s : State) : Option (Nat × Bool) × State :=
  match alookup k s.main with
  | some n =>
    let n' : ArcNode := { n with accessCount := n.accessCount + 1 }
    ((n'.value, decide (n'.accessCount ≥ s.transformThreshold)),
     { s with main := (k, n') :: aerase k s.main })
  | none => (none, s)

/-- `checkGhost`: detach and unindex a ghost hit. -/
def checkGhost (k : Nat) (s : State) : Bool × State :=
  match alookup k s.ghost with
  | some _ => (true, { s with ghost := aerase k s.ghost })
  | none => (false, s)

def increaseCapacity (s : State) : State := { s with capacity := s.capacity + 1 }

/-- `decreaseCapacity`: fail on capacity 0; evict one entry first when the
main cache sits exactly at capacity. -/
def decreaseCapacity (s : State) : Bool × State :=
  if s.capacity = 0 then (false, s)
  else
    let s1 := if s.main.length = s.capacity then evictLeastRecent s else s
    (true, { s1 with capacity := s1.capacity - 1 })

end ArcLruPart

/-! ## `ArcLfuPart` — the frequency half of ARC (src/lib/KArcCache/KArcLfuPart.h)

`freqMap_` is a `std::map<size_t, std::list<NodePtr>>`: bucket lists keyed
by frequency, embedded as an association list of key lists whose *presence*
matters (`evictLeastFrequent` checks `freqMap_.empty()` and its `operator[]`
default-inserts an empty bucket).  `freqMap_.begin()->first` is the
smallest present frequency.  The ghost list appends at `ghostTail_` and
`removeOldestGhost` pops `ghostHead_->next_`, so `ghost` is oldest first.
Ghost insertion does **not** reset the access count here. -/

namespace ArcLfuPart

open ArcCache

structure State where
  capacity : Nat
  ghostCapacity : Nat
  transformThreshold : Nat
  minFreq : Nat
  main : List (Nat × ArcNode)
  freqMap : List (Nat × List Nat)
  ghost : List (Nat × ArcNode)
  deriving Repr, DecidableEq

def init (capacity transformThreshold : Nat) : State :=
  ⟨capacity, capacity, transformThreshold, 0, [], [], []⟩

/-- `freqMap_.begin()->first`: the smallest key of a non-empty `std::map`. -/
def minKey (l : List (Nat × List Nat)) : Nat :=
  match l with
  | [] => 0
  | p :: t => t.foldl (fun acc q => min acc q.1) p.1

/-- `freqMap_[f]` as a read: an absent bucket reads as empty. -/
def fGet (f : Nat) (m : List (Nat × List Nat)) : List Nat :=
  (alookup f m).getD []

/-- `freqMap_[f]` as `operator[]`: default-insert the bucket when absent. -/
def fEnsure (f : Nat) (m : List (Nat × List Nat)) : List (Nat × List Nat) :=
  match alookup f m with
  | some _ => m
  | none => m ++ [(f, [])]

/-- Replace bucket `f`'s list (after `fEnsure`). -/
def fSet (f : Nat) (b : List Nat) (m : List (Nat × List Nat)) : List (Nat × List Nat) :=
  aupdate f (fun _ => b) (fEnsure f m)

/-- Append a node key at the back of bucket `f`, creating it when absent
(the `freqMap_.find == end ? freqMap_[f] = {} : ; freqMap_[f].push_back`
idiom). -/
def fAppend (f k : Nat) (m : List (Nat × List Nat)) : List (Nat × List Nat) :=
  fSet f (fGet f m ++ [k]) m

/-- `updateNodeFrequency` on the node of key `k` with fields `n`: increment
the count, move the key from the old bucket to the back of the new one,
erase the old bucket if emptied and advance `minFreq_` when it was the
minimum. -/
def updateNodeFrequency (k : Nat) (n : ArcNode) (s : State) : State :=
  let oldFreq := n.accessCount
  let newFreq := oldFreq + 1
  let s1 := { s with main := aupdate k (fun _ => { n with accessCount := newFreq }) s.main }
  let oldList := (fGet oldFreq s1.freqMap).erase k
  let s2 :=
    if oldList = [] then
      { s1 with
        freqMap := aerase oldFreq (fEnsure oldFreq s1.freqMap)
        minFreq := if oldFreq = s1.minFreq then newFreq else s1.minFreq }
    else { s1 with freqMap := fSet oldFreq oldList s1.freqMap }
  { s2 with freqMap := fAppend newFreq k s2.freqMap }

/-- `removeOldestGhost`: pop `ghostHead_->next_` unless the list is empty. -/
def removeOldestGhost (s : State) : State :=
  match s.ghost with
  | [] => s
  | _ :: rest => { s with ghost := rest }

/-- `evictLeastFrequent`: bail out on an empty `freqMap_`; read bucket
`minFreq_` through `operator[]` (default-inserting it) and bail out if it
is empty; otherwise pop its front node, erase the bucket if emptied
(re-aiming `minFreq_` at the smallest remaining bucket), move the victim to
the ghost list under ghost-capacity enforcement, and unindex it. -/
def evictLeastFrequent (s : State) : State :=
  if s.freqMap = [] then s
  else
    match fGet s.minFreq s.freqMap with
    | [] => { s with freqMap := fEnsure s.minFreq s.freqMap }
    | k0 :: rest =>
      let s1 :=
        if rest = [] then
          let fm := aerase s.minFreq (fEnsure s.minFreq s.freqMap)
          { s with
            freqMap := fm
            minFreq := if fm = [] then s.minFreq else minKey fm }
        else { s with freqMap := fSet s.minFreq rest s.freqMap }
      let n0 := (alookup k0 s1.main).getD (mkArcNode 0)
      let s2 := if s1.ghost.length ≥ s1.ghostCapacity then removeOldestGhost s1 else s1
      { s2 with
        ghost := s2.ghost ++ [(k0, n0)]
        main := aerase k0 s2.main }

/-- `addNewNode`: evict when at capacity, then index the fresh node, append
it to bucket 1 and set `minFreq_ = 1`. -/
def addNewNode (k v : Nat) (s : State) : State :=
  let s1 := if s.main.length ≥ s.capacity then evictLeastFrequent s else s
  { s1 with
    main := (k, mkArcNode v) :: s1.main
    freqMap := fAppend 1 k s1.freqMap
    minFreq := 1 }

/-- `put`: `false` at capacity 0; overwrite and re-rank an existing key,
else `addNewNode`. -/
def put (k v : Nat) (s : State) : Bool × State :=
  if s.capacity = 0 then (false, s)
  else
    match alookup k s.main with
    | some n =>
      (true, updateNodeFrequency k { n with value := v }
        { s with main := aupdate k (fun _ => { n with value := v }) s.main })
    | none => (true, addNewNode k v s)

/-- `get`: a hit re-ranks the node and returns its value. -/
def get (k : Nat) (s : State) : Option Nat × State :=
  match alookup k s.main with
  | some n => (some n.value, updateNodeFrequency k n s)
  | none => (none, s)

/-- `contain`: a pure main-index probe. -/
def contain (k : Nat) (s : State) : Bool :=
  decide (alookup k s.main ≠ none)

/-- `checkGhost`: detach and unindex a ghost hit. -/
def checkGhost (k : Nat) (s : State) : Bool × State :=
  match alookup k s.ghost with
  | some _ => (true, { s with ghost := aerase k s.ghost })
  | none => (false, s)

def increaseCapacity (s : State) : State := { s with capacity := s.capacity + 1 }

/-- `decreaseCapacity`: fail on capacity 0; evict one entry first when the
main cache sits exactly at capacity. -/
def decreaseCapacity (s : State) : Bool × State :=
  if s.capacity = 0 then (false, s)
  else
    let s1 := if s.main.length = s.capacity then evictLeastFrequent s else s
    (true, { s1 with capacity := s1.capacity - 1 })

end ArcLfuPart

/-! ## `KArcCache` — the composed policy (src/lib/KArcCache/KArcCache.h) -/

namespace KArcCache

structure State where
  lru : ArcLruPart.State
  lfu : ArcLfuPart.State
  deriving Repr, DecidableEq

def init (capacity transformThreshold : Nat) : State :=
  ⟨ArcLruPart.init capacity transformThreshold,
   ArcLfuPart.init capacity transformThreshold⟩

/-- `checkGhostCaches`: a hit in one half's ghost list removes it there and
shifts one unit of capacity towards that half, the decrement applied first
and the increment only if it succeeded. -/
def checkGhostCaches (k : Nat) (s : State) : Bool × State :=
  match ArcLruPart.checkGhost k s.lru with
  | (true, lru1) =>
    match ArcLfuPart.decreaseCapacity s.lfu with
    | (true, lfu1) => (true, ⟨ArcLruPart.increaseCapacity lru1, lfu1⟩)
    | (false, lfu1) => (true, ⟨lru1, lfu1⟩)
  | (false, _) =>
    match ArcLfuPart.checkGhost k s.lfu with
    | (true, lfu1) =>
      match ArcLruPart.decreaseCapacity s.lru with
      | (true, lru1) => (true, ⟨lru1, ArcLfuPart.increaseCapacity lfu1⟩)
      | (false, lru1) => (true, ⟨lru1, lfu1⟩)
    | (false, _) => (false, s)

/-- `KArcCache::put`: ghost check, then always write the LRU half, and also
the LFU half when it already holds the key. -/
def put (k v : Nat) (s : State) : State :=
  let s1 := (checkGhostCaches k s).2
  let inLfu := ArcLfuPart.contain k s1.lfu
  let lru2 := (ArcLruPart.put k v s1.lru).2
  if inLfu then ⟨lru2, (ArcLfuPart.put k v s1.lfu).2⟩
  else ⟨lru2, s1.lfu⟩

/-- `KArcCache::get`: ghost check, then probe the LRU half — promoting into
the LFU half when `shouldTransform` fires — and fall back to the LFU half. -/
def get (k : Nat) (s : State) : Option Nat × State :=
  let s1 := (checkGhostCaches k s).2
  match ArcLruPart.get k s1.lru with
  | (some (v, shouldTransform), lru2) =>
    if shouldTransform then (some v, ⟨lru2, (ArcLfuPart.put k v s1.lfu).2⟩)
    else (some v, ⟨lru2, s1.lfu⟩)
  | (none, _) =>
    let (r, lfu2) := ArcLfuPart.get k s1.lfu
    (r, ⟨s1.lru, lfu2⟩)

/-- Operations a client can issue against a `KArcCache`. -/
inductive Op where
  | put (k v : Nat)
  | get (k : Nat)
  deriving Repr, DecidableEq

def step (op : Op) (s : State) : State :=
  match op with
  | .put k v => put k v s
  | .get k => (get k s).2

def run (ops : List Op) (s : State) : State := ops.foldl (fun s op => step op s) s

end KArcCache


/-! ## Concrete traces used by the claim analyses -/

def c3opsA : List KLruCache.Op :=
  [.put 1 10, .put 2 20, .put 3 30, .get 1, .put 4 40]

def c3opsB : List KLruCache.Op :=
  [.put 1 10, .put 3 30, .get 1, .put 4 40]


def c2ops : List KLfuCache.Op :=
  [.put 1 10] ++ List.replicate 126 (.get 1) ++ [.put 2 20]

def c5ops : List KLfuCache.Op :=
  [.put 1 10] ++ List.replicate 126 (.get 1)

def c10ops : List KLfuCache.Op :=
  [.put 1 10, .get 1, .get 1]

def c5wit : KLfuCache.State := KLfuCache.run [.put 1 10] (KLfuCache.init 1 1)

def arcWit : KArcCache.State := KArcCache.run [.put 1 5, .put 2 6] (KArcCache.init 1 2)

/-- Well-formedness of the `ArcLfuPart` eviction data: the bucket `minFreq_`
points at is non-empty and its front node is indexed by the main cache — the
shape every reachable state has, under which `evictLeastFrequent` really
evicts one entry. -/
def ArcLfuPart.EvictReady (s : ArcLfuPart.State) : Prop :=
  ∃ k0 rest, ArcLfuPart.fGet s.minFreq s.freqMap = k0 :: rest ∧ k0 ∈ akeys s.main

/-- The specification-side reading of what `updateMinFreq` recomputes: the
smallest frequency whose bucket is non-empty, when one exists. -/
def smallestNonemptyBucket : List (Nat × List Nat) → Option Nat
  | [] => none
  | p :: t =>
    let r := smallestNonemptyBucket t
    if p.2 ≠ [] then
      some (match r with | none => p.1 | some m => min p.1 m)
    else r


/-- The whole-cache main-index invariant used for put–get coherence: both
halves index key `k` only at value `vn`, and neither main index repeats a
key. -/
def KArcCache.MainInv (k vn : Nat) (s : KArcCache.State) : Prop :=
  AllVal ArcCache.ArcNode.value k vn s.lru.main ∧
  AllVal ArcCache.ArcNode.value k vn s.lfu.main ∧
  NodupK s.lru.main ∧ NodupK s.lfu.main

/-- The state of a `KLruKCache` after `i` consecutive `put(k, ·)` calls on a
fresh cache (`i ≥ 1`), the last one writing `v`, with positive main and
history capacities: below the admission threshold `k_` the key lives only in
the history cache (count `i`) and the pending-value map; from the threshold
on it lives only in the main cache. -/
def KLruKCache.consecState (C hc kk k i v : Nat) : KLruKCache.State :=
  if i < kk then
    ⟨KLruCache.init C, ⟨hc, [(k, i)]⟩, [(k, v)], kk⟩
  else
    ⟨⟨C, [(k, v)]⟩, ⟨hc, []⟩, [], kk⟩

theorem mem_of_mem_aerase {β : Type} {k : Nat} {l : List (Nat × β)} {p : Nat × β}
    (h : p ∈ aerase k l) : p ∈ l := by
  induction l with
  | nil => simpa [aerase] using h
  | cons q t ih =>
    obtain ⟨a, b⟩ := q
    by_cases hak : a = k
    · simp only [aerase, if_pos hak] at h
      exact List.mem_cons_of_mem _ h
    · simp only [aerase, if_neg hak, List.mem_cons] at h
      rcases h with h | h
      · exact h ▸ List.mem_cons_self _ _
      · exact List.mem_cons_of_mem _ (ih h)

theorem aerase_sublist {β : Type} (k : Nat) (l : List (Nat × β)) :
    (aerase k l).Sublist l := by
  induction l with
  | nil => simp [aerase]
  | cons q t ih =>
    obtain ⟨a, b⟩ := q
    by_cases hak : a = k
    · simp only [aerase, if_pos hak]
      exact List.sublist_cons_self _ _
    · simp only [aerase, if_neg hak]
      exact List.Sublist.cons₂ _ ih

theorem alookup_mem {β : Type} {k : Nat} {l : List (Nat × β)} {b : β}
    (h : alookup k l = some b) : (k, b) ∈ l := by
  induction l with
  | nil => simp [alookup] at h
  | cons q t ih =>
    obtain ⟨a, c⟩ := q
    by_cases hak : a = k
    · simp only [alookup, if_pos hak] at h
      subst hak
      obtain rfl : c = b := by injection h
      exact List.mem_cons_self _ _
    · simp only [alookup, if_neg hak] at h
      exact List.mem_cons_of_mem _ (ih h)

theorem alookup_eq_none_of_not_mem_keys {β : Type} {k : Nat} {l : List (Nat × β)}
    (h : k ∉ akeys l) : alookup k l = none := by
  induction l with
  | nil => rfl
  | cons q t ih =>
    obtain ⟨a, b⟩ := q
    simp only [akeys, List.map_cons, List.mem_cons] at h
    push_neg at h
    have hak : a ≠ k := fun hk => h.1 hk.symm
    simp only [alookup, if_neg hak]
    exact ih h.2

theorem mem_keys_of_alookup_ne_none {β : Type} {k : Nat} {l : List (Nat × β)}
    (h : alookup k l ≠ none) : k ∈ akeys l := by
  by_contra hk
  exact h (alookup_eq_none_of_not_mem_keys hk)

theorem alookup_aerase_ne {β : Type} {j k : Nat} (hjk : j ≠ k) (l : List (Nat × β)) :
    alookup k (aerase j l) = alookup k l := by
  induction l with
  | nil => rfl
  | cons q t ih =>
    obtain ⟨a, b⟩ := q
    by_cases haj : a = j
    · subst haj
      simp [aerase, alookup, hjk]
    · by_cases hak : a = k
      · subst hak
        simp [aerase, alookup, haj]
      · simp [aerase, alookup, haj, hak, ih]

theorem alookup_append {β : Type} (k : Nat) (l₁ l₂ : List (Nat × β)) :
    alookup k (l₁ ++ l₂) =
      match alookup k l₁ with
      | some b => some b
      | none => alookup k l₂ := by
  induction l₁ with
  | nil => rfl
  | cons q t ih =>
    obtain ⟨a, b⟩ := q
    by_cases hak : a = k
    · simp [alookup, if_pos hak]
    · simp only [List.cons_append, alookup, if_neg hak, List.append_eq]
      exact ih

theorem alookup_cons_ne {β : Type} {j k : Nat} (hjk : j ≠ k) (b : β) (l : List (Nat × β)) :
    alookup k ((j, b) :: l) = alookup k l := by
  simp [alookup, if_neg hjk]

theorem alookup_cons_self {β : Type} (k : Nat) (b : β) (l : List (Nat × β)) :
    alookup k ((k, b) :: l) = some b := by
  simp [alookup]

theorem akeys_aupdate {β : Type} (k : Nat) (f : β → β) (l : List (Nat × β)) :
    akeys (aupdate k f l) = akeys l := by
  induction l with
  | nil => rfl
  | cons q t ih =>
    obtain ⟨a, b⟩ := q
    by_cases hak : a = k
    · simp [aupdate, if_pos hak, akeys]
    · simp [aupdate, if_neg hak, akeys, akeys_aupdate] at ih ⊢
      exact ih

theorem mem_aupdate {β : Type} {k : Nat} {f : β → β} {l : List (Nat × β)} {p : Nat × β}
    (h : p ∈ aupdate k f l) :
    p ∈ l ∨ ∃ b, (p.1, b) ∈ l ∧ p.1 = k ∧ p.2 = f b := by
  induction l with
  | nil => simp [aupdate] at h
  | cons q t ih =>
    obtain ⟨a, b⟩ := q
    by_cases hak : a = k
    · subst hak
      simp only [aupdate, if_pos rfl, List.mem_cons] at h
      rcases h with h1 | h2
      · exact Or.inr ⟨b, by simp, rfl, rfl⟩
      · rename_i hm
        exact Or.inl (List.mem_cons_of_mem _ hm)
    · simp only [aupdate, if_neg hak, List.mem_cons] at h
      rcases h with h | h
      · exact Or.inl (h ▸ List.mem_cons_self _ _)
      · rcases ih h with h' | ⟨c, hc, hk, hp⟩
        · exact Or.inl (List.mem_cons_of_mem _ h')
        · exact Or.inr ⟨c, List.mem_cons_of_mem _ hc, hk, hp⟩

theorem not_mem_keys_aerase_self {β : Type} {k : Nat} {l : List (Nat × β)}
    (h : NodupK l) : k ∉ akeys (aerase k l) := by
  induction l with
  | nil => simp [aerase, akeys]
  | cons q t ih =>
    obtain ⟨a, b⟩ := q
    simp only [NodupK, akeys, List.map_cons, List.nodup_cons] at h
    by_cases hak : a = k
    · subst hak
      simpa only [aerase, if_pos rfl] using h.1
    · simp only [aerase, if_neg hak, akeys, List.map_cons, List.mem_cons]
      push_neg
      exact ⟨fun hk => hak hk.symm, ih h.2⟩

theorem nodupk_aerase {β : Type} (k : Nat) {l : List (Nat × β)} (h : NodupK l) :
    NodupK (aerase k l) :=
  List.Nodup.sublist (List.Sublist.map _ (aerase_sublist k l)) h

theorem nodupk_of_sublist {β : Type} {l l' : List (Nat × β)} (hs : l'.Sublist l)
    (h : NodupK l) : NodupK l' :=
  List.Nodup.sublist (List.Sublist.map _ hs) h

theorem nodupk_aupdate {β : Type} (k : Nat) (f : β → β) {l : List (Nat × β)}
    (h : NodupK l) : NodupK (aupdate k f l) := by
  unfold NodupK
  rw [akeys_aupdate]
  exact h

theorem nodupk_aerase_append_single {β : Type} {k : Nat} {l : List (Nat × β)} (b : β)
    (h : NodupK l) : NodupK (aerase k l ++ [(k, b)]) := by
  unfold NodupK at *
  simp only [akeys, List.map_append, List.map_cons, List.map_nil]
  rw [List.nodup_append]
  refine ⟨nodupk_aerase k h, List.nodup_singleton _, ?_⟩
  intro a ha hb
  simp only [List.mem_singleton] at hb
  subst hb
  exact not_mem_keys_aerase_self h ha

theorem nodupk_cons_aerase {β : Type} {k : Nat} {l : List (Nat × β)} (b : β)
    (h : NodupK l) : NodupK ((k, b) :: aerase k l) := by
  unfold NodupK at *
  simp only [akeys, List.map_cons, List.nodup_cons]
  exact ⟨not_mem_keys_aerase_self h, nodupk_aerase k h⟩

theorem nodupk_append_single_of_not_mem {β : Type} {k : Nat} {l : List (Nat × β)} (b : β)
    (hk : k ∉ akeys l) (h : NodupK l) : NodupK (l ++ [(k, b)]) := by
  unfold NodupK at *
  simp only [akeys, List.map_append, List.map_cons, List.map_nil]
  rw [List.nodup_append]
  refine ⟨h, List.nodup_singleton _, ?_⟩
  intro a ha hb
  simp only [List.mem_singleton] at hb
  subst hb
  exact hk ha

theorem nodupk_cons_of_not_mem {β : Type} {k : Nat} {l : List (Nat × β)} (b : β)
    (hk : k ∉ akeys l) (h : NodupK l) : NodupK ((k, b) :: l) := by
  unfold NodupK at *
  simp only [akeys, List.map_cons, List.nodup_cons]
  exact ⟨hk, h⟩

theorem allval_nil {β : Type} (val : β → Nat) (k vn : Nat) :
    AllVal val k vn ([] : List (Nat × β)) := by
  intro p hp
  simp at hp

theorem allval_of_forall_mem {β : Type} {val : β → Nat} {k vn : Nat}
    {l l' : List (Nat × β)} (hsub : ∀ p ∈ l', p ∈ l) (h : AllVal val k vn l) :
    AllVal val k vn l' :=
  fun p hp => h p (hsub p hp)

theorem allval_aerase {β : Type} {val : β → Nat} {k vn : Nat} (j : Nat)
    {l : List (Nat × β)} (h : AllVal val k vn l) : AllVal val k vn (aerase j l) :=
  allval_of_forall_mem (fun _ hp => mem_of_mem_aerase hp) h

theorem allval_tail {β : Type} {val : β → Nat} {k vn : Nat}
    {l : List (Nat × β)} (h : AllVal val k vn l) : AllVal val k vn l.tail :=
  allval_of_forall_mem (fun _ hp => List.mem_of_mem_tail hp) h

theorem allval_dropLast {β : Type} {val : β → Nat} {k vn : Nat}
    {l : List (Nat × β)} (h : AllVal val k vn l) : AllVal val k vn l.dropLast :=
  allval_of_forall_mem (fun _ hp => List.dropLast_subset _ hp) h

theorem allval_append {β : Type} {val : β → Nat} {k vn : Nat}
    {l₁ l₂ : List (Nat × β)} (h₁ : AllVal val k vn l₁) (h₂ : AllVal val k vn l₂) :
    AllVal val k vn (l₁ ++ l₂) := by
  intro p hp hk
  rcases List.mem_append.mp hp with hm | hm
  · exact h₁ p hm hk
  · exact h₂ p hm hk

theorem allval_single_ne {β : Type} (val : β → Nat) {k vn j : Nat} (b : β)
    (hjk : j ≠ k) : AllVal val k vn [(j, b)] := by
  intro p hp hk
  simp only [List.mem_singleton] at hp
  subst hp
  exact absurd hk hjk

theorem allval_single_self {β : Type} {val : β → Nat} {k vn : Nat} {b : β}
    (hb : val b = vn) : AllVal val k vn [(k, b)] := by
  intro p hp _
  simp only [List.mem_singleton] at hp
  subst hp
  exact hb

theorem allval_cons {β : Type} {val : β → Nat} {k vn j : Nat} {b : β}
    {l : List (Nat × β)} (hb : j = k → val b = vn) (h : AllVal val k vn l) :
    AllVal val k vn ((j, b) :: l) := by
  intro p hp hk
  rcases List.mem_cons.mp hp with hm | hm
  · subst hm
    exact hb hk
  · exact h p hm hk

theorem allval_lookup {β : Type} {val : β → Nat} {k vn : Nat} {l : List (Nat × β)} {b : β}
    (h : AllVal val k vn l) (hb : alookup k l = some b) : val b = vn :=
  h (k, b) (alookup_mem hb) rfl

theorem allval_aupdate {β : Type} {val : β → Nat} {k vn j : Nat} {f : β → β}
    {l : List (Nat × β)} (hf : ∀ b, val (f b) = val b) (h : AllVal val k vn l) :
    AllVal val k vn (aupdate j f l) := by
  intro p hp hk
  rcases mem_aupdate hp with hm | ⟨c, hc, _, hp2⟩
  · exact h p hm hk
  · rw [hp2, hf]
    exact h (p.1, c) hc hk

theorem allval_map {β : Type} {val : β → Nat} {k vn : Nat} {f : Nat × β → Nat × β}
    {l : List (Nat × β)} (hf : ∀ p, (f p).1 = p.1 ∧ val (f p).2 = val p.2)
    (h : AllVal val k vn l) : AllVal val k vn (l.map f) := by
  intro p hp hk
  rcases List.mem_map.mp hp with ⟨q, hq, hfq⟩
  subst hfq
  rw [(hf q).2]
  exact h q hq ((hf q).1 ▸ hk)

theorem allval_of_no_key {β : Type} {val : β → Nat} {k vn : Nat} {l : List (Nat × β)}
    (h : k ∉ akeys l) : AllVal val k vn l := by
  intro p hp hk
  exact absurd (hk ▸ List.mem_map_of_mem Prod.fst hp) h
/-! ## Claim C6 — LFU `purge` semantics -/

/-- C6 (amended): after `purge()` on the LFU policy every entry is dropped,
so every subsequent `get` misses — and leaves the state unchanged — until
the next `put`; but the counters (`curTotalNum_`, `curAverageNum_`) and
`minFreq_` are left exactly as they were, not reset to their initial
state. -/
theorem C6_lfu_purge_drops_entries_but_keeps_counters :
    ∀ (s : KLfuCache.State) (k : Nat) (ks : List Nat),
      (KLfuCache.get k (KLfuCache.purge s)).1 = none ∧
      (KLfuCache.get k (KLfuCache.purge s)).2 = KLfuCache.purge s ∧
      KLfuCache.run (ks.map KLfuCache.Op.get) (KLfuCache.purge s) = KLfuCache.purge s ∧
      (KLfuCache.purge s).nodeMap = [] ∧
      (KLfuCache.purge s).curTotalNum = s.curTotalNum ∧
      (KLfuCache.purge s).curAverageNum = s.curAverageNum ∧
      (KLfuCache.purge s).minFreq = s.minFreq ∧
      (KLfuCache.purge s).capacity = s.capacity := by
  intro s k ks
  have hrun : KLfuCache.run (ks.map KLfuCache.Op.get) (KLfuCache.purge s) =
      KLfuCache.purge s := by
    induction ks with
    | nil => rfl
    | cons a t ih =>
      simpa [KLfuCache.run, KLfuCache.step, KLfuCache.get, KLfuCache.purge, alookup]
        using ih
  exact ⟨rfl, rfl, hrun, rfl, rfl, rfl, rfl, rfl⟩

/-- C6 counterexample: the claim says `purge` resets `total_accesses`, the
running average and `min_freq` to their initial state (`0`, `0`, `127`).
After `put(1,·); get(1)` at capacity 1 the purged cache still reports
`curTotalNum_ = 2`, `curAverageNum_ = 2` and `minFreq_ = 2`. -/
theorem C6_counterexample_purge_keeps_stale_counters :
    (KLfuCache.purge (KLfuCache.run [KLfuCache.Op.put 1 10, KLfuCache.Op.get 1]
        (KLfuCache.init 1 1000000))).curTotalNum = 2 ∧
    (KLfuCache.purge (KLfuCache.run [KLfuCache.Op.put 1 10, KLfuCache.Op.get 1]
        (KLfuCache.init 1 1000000))).curAverageNum = 2 ∧
    (KLfuCache.purge (KLfuCache.run [KLfuCache.Op.put 1 10, KLfuCache.Op.get 1]
        (KLfuCache.init 1 1000000))).minFreq = 2 ∧
    (KLfuCache.init 1 1000000).curTotalNum = 0 ∧
    (KLfuCache.init 1 1000000).curAverageNum = 0 ∧
    (KLfuCache.init 1 1000000).minFreq = 127 := by
  refine ⟨?_, ?_, ?_, rfl, rfl, rfl⟩ <;> decide

/-! ## Claim C4 — the LRU-K admission gate on a cold key -/

/-- C4 (amended): for an LRU-K policy with `k = 2`, main capacity 1 and
history capacity 3, a single `put(B, v)` on a cold key `B` leaves `B`
unadmitted (the main cache stays empty and only the pending map holds `v`);
but the subsequent `get(B)` itself counts as the second observation of `B`,
reaches `k = 2`, admits the pending value into the main cache and returns
it — it does not return none. -/
theorem C4_lruk_cold_key_admitted_by_the_get :
    ∀ (B v : Nat),
      (KLruKCache.put B v (KLruKCache.init 1 3 2)).main.entries = [] ∧
      alookup B (KLruKCache.put B v (KLruKCache.init 1 3 2)).historyValueMap = some v ∧
      (KLruKCache.get B (KLruKCache.put B v (KLruKCache.init 1 3 2))).1 = some v ∧
      (KLruKCache.get B (KLruKCache.put B v (KLruKCache.init 1 3 2))).2.main.entries
        = [(B, v)] := by
  intro B v
  refine ⟨rfl, ?_, ?_, ?_⟩ <;>
    simp [KLruKCache.put, KLruKCache.get, KLruKCache.init, KLruKCache.aset,
      KLruCache.put, KLruCache.get, KLruCache.getValue, KLruCache.init,
      KLruCache.addNewNode, KLruCache.evictLeastRecent, KLruCache.remove,
      alookup, aerase, aupdate]

/-- C4 counterexample: the claim predicts `get(B) = none` after the single
`put(B, 2)`; the code admits `B` on that `get` and returns the pending
value 2. -/
theorem C4_counterexample_get_returns_pending_value :
    (KLruKCache.get 7 (KLruKCache.put 7 2 (KLruKCache.init 1 3 2))).1 = some 2 := by
  decide


/-! ## Claim C3 — what LRU eviction does with the victim -/
/-- C3 (amended): when `put` of a key not in the LRU main index finds the
main index at capacity `C > 0`, the least-recent entry is detached from the
main list, removed from the main index, and discarded — the standalone
`KLruCache` keeps no ghost list (only the ARC sub-caches do).  With
capacity 3 and the sequence `put(1,a), put(2,b), put(3,c), get(1),
put(4,d)`, key 2 is the evicted entry while keys 1, 3, 4 remain retrievable
from the main index. -/
theorem C3_lru_eviction_discards_the_victim :
    (∀ (s : KLruCache.State) (k v : Nat),
        0 < s.capacity → alookup k s.entries = none →
        s.entries.length ≥ s.capacity →
        KLruCache.put k v s = { s with entries := s.entries.tail ++ [(k, v)] }) ∧
    (KLruCache.run c3opsA (KLruCache.init 3)).entries = [(3, 30), (1, 10), (4, 40)] ∧
    2 ∉ akeys (KLruCache.run c3opsA (KLruCache.init 3)).entries ∧
    (KLruCache.get 1 (KLruCache.run c3opsA (KLruCache.init 3))).1 = some 10 ∧
    (KLruCache.get 3 (KLruCache.run c3opsA (KLruCache.init 3))).1 = some 30 ∧
    (KLruCache.get 4 (KLruCache.run c3opsA (KLruCache.init 3))).1 = some 40 := by
  refine ⟨?_, by decide, by decide, by decide, by decide, by decide⟩
  intro s k v hc hk hlen
  have hc0 : s.capacity ≠ 0 := Nat.pos_iff_ne_zero.mp hc
  simp [KLruCache.put, hc0, hk, KLruCache.addNewNode, KLruCache.evictLeastRecent, hlen]

/-- C3 witness: the general eviction equation applied at the state reached
by `put(1,a), put(2,b), put(3,c), get(1)` with the final `put(4,d)`. -/
theorem C3_lru_eviction_discards_the_victim_witness :
    KLruCache.put 4 40 (KLruCache.run [.put 1 10, .put 2 20, .put 3 30, .get 1]
        (KLruCache.init 3)) =
      { capacity := 3, entries := [(3, 30), (1, 10), (4, 40)] } := by
  have h := C3_lru_eviction_discards_the_victim.1
      (KLruCache.run [.put 1 10, .put 2 20, .put 3 30, .get 1] (KLruCache.init 3))
      4 40 (by decide) (by decide) (by decide)
  rw [h]
  decide

/-- C3 counterexample: the claim says the evicted key 2 "afterwards appears
in the ghost list".  `KLruCache` retains nothing at all about an evicted
key: the state after `put(1,a), put(2,b), put(3,c), get(1), put(4,d)` is
*identical* to the state of a run in which key 2 was never inserted, and
`get(2)` misses. -/
theorem C3_counterexample_no_ghost_record_of_key_2 :
    KLruCache.run c3opsA (KLruCache.init 3) = KLruCache.run c3opsB (KLruCache.init 3) ∧
    (KLruCache.get 2 (KLruCache.run c3opsA (KLruCache.init 3))).1 = none := by
  exact ⟨by decide, by decide⟩


/-! ## Claim C2 — the capacity bound, and the failing input that breaks it -/
/-- C2 failing input: at capacity 1 with `maxAverageNum = 1` (so aging
subtracts `1 / 2 = 0` and frequencies keep growing), after `put(1,·)` and
126 hits on key 1 its frequency reaches 127 and the aging pass's
`updateMinFreq` — whose scan sentinel is `INT8_MAX = 127` — resets
`minFreq_` to 1 even though the only non-empty bucket is 127.  The next
`put(2,·)` then calls `kickOut` on the long-empty bucket 1, whose
`getFirstNode` returns the tail sentinel; nothing is evicted
(`removeNode` no-ops and `nodeMap_.erase(Key())` misses), and the insert
drives the main index to 2 entries — above the capacity bound of 1 the
claim (rightly) demands. -/
theorem C2_lfu_capacity_bound_violated_at_failing_input :
    (KLfuCache.run c2ops (KLfuCache.init 1 1)).capacity = 1 ∧
    (KLfuCache.run c2ops (KLfuCache.init 1 1)).nodeMap.length = 2 ∧
    alookup 1 (KLfuCache.run c2ops (KLfuCache.init 1 1)).nodeMap = some ⟨10, 127⟩ ∧
    alookup 2 (KLfuCache.run c2ops (KLfuCache.init 1 1)).nodeMap = some ⟨20, 1⟩ := by
  exact ⟨by decide, by decide, by decide, by decide⟩

/-! ## Claim C5 — the aging rescale and `updateMinFreq` -/

theorem alookup_aupdate_self {β : Type} (k : Nat) (f : β → β) (l : List (Nat × β)) :
    alookup k (aupdate k f l) = (alookup k l).map f := by
  induction l with
  | nil => rfl
  | cons q t ih =>
    obtain ⟨a, b⟩ := q
    by_cases hak : a = k
    · subst hak
      simp [aupdate, alookup]
    · simp [aupdate, alookup, hak, ih]

theorem alookup_aupdate_ne {β : Type} {j k : Nat} (hjk : j ≠ k) (f : β → β)
    (l : List (Nat × β)) : alookup k (aupdate j f l) = alookup k l := by
  induction l with
  | nil => rfl
  | cons q t ih =>
    obtain ⟨a, b⟩ := q
    by_cases haj : a = j
    · subst haj
      simp [aupdate, alookup, hjk]
    · by_cases hak : a = k
      · subst hak
        simp [aupdate, alookup, haj]
      · simp [aupdate, alookup, haj, hak, ih]

theorem alookup_map_payload {β γ : Type} (k : Nat) (g : Nat → β → γ)
    (l : List (Nat × β)) :
    alookup k (l.map (fun p => (p.1, g p.1 p.2))) = (alookup k l).map (g k) := by
  induction l with
  | nil => rfl
  | cons q t ih =>
    obtain ⟨a, b⟩ := q
    by_cases hak : a = k
    · subst hak
      simp [alookup]
    · simp [alookup, hak, ih]

theorem KLfuCache.bucketGet_bucketAppend_self (f k : Nat)
    (m : List (Nat × List Nat)) :
    KLfuCache.bucketGet f (KLfuCache.bucketAppend f k m) =
      KLfuCache.bucketGet f m ++ [k] := by
  unfold KLfuCache.bucketAppend KLfuCache.bucketGet
  cases hm : alookup f m with
  | some b => simp [alookup_aupdate_self, hm]
  | none => simp [alookup_append, hm, alookup]

theorem KLfuCache.bucketGet_bucketAppend_ne {f f' : Nat} (hff : f' ≠ f) (k : Nat)
    (m : List (Nat × List Nat)) :
    KLfuCache.bucketGet f (KLfuCache.bucketAppend f' k m) =
      KLfuCache.bucketGet f m := by
  unfold KLfuCache.bucketAppend KLfuCache.bucketGet
  cases hm : alookup f' m with
  | some b => simp [alookup_aupdate_ne hff]
  | none =>
    rw [alookup_append]
    cases alookup f m <;> simp [alookup, hff]

theorem KLfuCache.bucketGet_bucketRemove_self (f k : Nat)
    (m : List (Nat × List Nat)) :
    KLfuCache.bucketGet f (KLfuCache.bucketRemove f k m) =
      (KLfuCache.bucketGet f m).erase k := by
  unfold KLfuCache.bucketRemove KLfuCache.bucketGet
  cases hm : alookup f m with
  | some b => simp [alookup_aupdate_self, hm]
  | none => simp [alookup_aupdate_self, hm]

theorem KLfuCache.bucketGet_bucketRemove_ne {f f' : Nat} (hff : f' ≠ f) (k : Nat)
    (m : List (Nat × List Nat)) :
    KLfuCache.bucketGet f (KLfuCache.bucketRemove f' k m) =
      KLfuCache.bucketGet f m := by
  unfold KLfuCache.bucketRemove KLfuCache.bucketGet
  simp [alookup_aupdate_ne hff]

theorem KLfuCache.mem_bucketGet_append_remove {j k' f f' f'' : Nat} (hkj : k' ≠ j)
    {m : List (Nat × List Nat)} (h : j ∈ KLfuCache.bucketGet f m) :
    j ∈ KLfuCache.bucketGet f
        (KLfuCache.bucketAppend f'' k' (KLfuCache.bucketRemove f' k' m)) := by
  have h1 : j ∈ KLfuCache.bucketGet f (KLfuCache.bucketRemove f' k' m) := by
    by_cases hf : f' = f
    · subst hf
      rw [KLfuCache.bucketGet_bucketRemove_self]
      exact (List.mem_erase_of_ne (fun hj => hkj hj.symm)).mpr h
    · rwa [KLfuCache.bucketGet_bucketRemove_ne hf]
  by_cases hf : f'' = f
  · subst hf
    rw [KLfuCache.bucketGet_bucketAppend_self]
    exact List.mem_append_left _ h1
  · rwa [KLfuCache.bucketGet_bucketAppend_ne hf]

theorem KLfuCache.mem_bucket_fold_preserve {g h : KLfuCache.LfuNode → Nat} {j f : Nat} :
    ∀ (es : List (Nat × KLfuCache.LfuNode)) (acc : List (Nat × List Nat)),
      (∀ p ∈ es, p.1 ≠ j) → j ∈ KLfuCache.bucketGet f acc →
      j ∈ KLfuCache.bucketGet f
          (es.foldl (fun acc p =>
            KLfuCache.bucketAppend (g p.2) p.1 (KLfuCache.bucketRemove (h p.2) p.1 acc)) acc)
  | [], acc, _, hm => hm
  | p :: t, acc, hne, hm => by
    simp only [List.foldl_cons]
    exact KLfuCache.mem_bucket_fold_preserve t _
      (fun q hq => hne q (List.mem_cons_of_mem _ hq))
      (KLfuCache.mem_bucketGet_append_remove (hne p (List.mem_cons_self _ _)) hm)

theorem KLfuCache.mem_bucket_fold {g h : KLfuCache.LfuNode → Nat} :
    ∀ (es : List (Nat × KLfuCache.LfuNode)) (acc : List (Nat × List Nat))
      (j : Nat) (n : KLfuCache.LfuNode),
      NodupK es → alookup j es = some n →
      j ∈ KLfuCache.bucketGet (g n)
          (es.foldl (fun acc p =>
            KLfuCache.bucketAppend (g p.2) p.1 (KLfuCache.bucketRemove (h p.2) p.1 acc)) acc)
  | [], _, _, _, _, hl => by simp [alookup] at hl
  | (a, b) :: t, acc, j, n, hnd, hl => by
    simp only [NodupK, akeys, List.map_cons, List.nodup_cons] at hnd
    by_cases haj : a = j
    · subst haj
      rw [alookup_cons_self] at hl
      obtain rfl : b = n := by injection hl
      simp only [List.foldl_cons]
      refine KLfuCache.mem_bucket_fold_preserve t _
        (fun q hq hqa => hnd.1 (hqa ▸ List.mem_map_of_mem Prod.fst hq)) ?_
      rw [KLfuCache.bucketGet_bucketAppend_self]
      exact List.mem_append_right _ (List.mem_singleton.mpr rfl)
    · rw [alookup_cons_ne haj] at hl
      simp only [List.foldl_cons]
      exact KLfuCache.mem_bucket_fold t _ j n hnd.2 hl

theorem foldl_min_eq_smallestNonemptyBucket :
    ∀ (l : List (Nat × List Nat)) (a : Nat),
      l.foldl (fun acc p => if p.2 ≠ [] then min acc p.1 else acc) a =
        match smallestNonemptyBucket l with
        | none => a
        | some m => min a m
  | [], a => rfl
  | p :: t, a => by
    rw [List.foldl_cons, foldl_min_eq_smallestNonemptyBucket t]
    by_cases hp : p.2 = []
    · simp only [smallestNonemptyBucket, hp, ne_eq, not_true_eq_false, if_false]
      try cases smallestNonemptyBucket t <;> simp
    · simp only [smallestNonemptyBucket, ne_eq, hp, not_false_eq_true, if_true]
      try cases smallestNonemptyBucket t <;> simp [Nat.min_assoc]

theorem alookup_map_value {β γ : Type} (k : Nat) (g : β → γ) (l : List (Nat × β)) :
    alookup k (l.map (fun p => (p.1, g p.2))) = (alookup k l).map g := by
  induction l with
  | nil => rfl
  | cons q t ih =>
    obtain ⟨a, b⟩ := q
    by_cases hak : a = k
    · subst hak
      simp [alookup]
    · simp [alookup, hak, ih]

theorem KLfuCache.alookup_aging_map (d j : Nat) :
    ∀ l : List (Nat × KLfuCache.LfuNode),
      alookup j (l.map (fun p => (p.1,
        (⟨p.2.value, if p.2.freq - d < 1 then 1 else p.2.freq - d⟩ : KLfuCache.LfuNode)))) =
      (alookup j l).map (fun n =>
        (⟨n.value, if n.freq - d < 1 then 1 else n.freq - d⟩ : KLfuCache.LfuNode))
  | [] => rfl
  | (a, b) :: t => by
    by_cases haj : a = j
    · subst haj
      simp [alookup]
    · rw [List.map_cons, alookup_cons_ne haj, alookup_cons_ne haj]
      exact KLfuCache.alookup_aging_map d j t

theorem KLfuCache.updateMinFreq_minFreq (x : KLfuCache.State) :
    (KLfuCache.updateMinFreq x).minFreq =
      match smallestNonemptyBucket x.freqToFreqList with
      | none => 1
      | some f => if f < 127 then f else 1 := by
  unfold KLfuCache.updateMinFreq
  simp only [foldl_min_eq_smallestNonemptyBucket]
  cases hr : smallestNonemptyBucket x.freqToFreqList with
  | none => simp
  | some f =>
    by_cases hf : f < 127
    · have hmin : min 127 f = f := Nat.min_eq_right (Nat.le_of_lt hf)
      simp [hmin, Nat.ne_of_lt hf, hf]
    · have hmin : min 127 f = 127 := Nat.min_eq_left (Nat.le_of_not_lt hf)
      simp [hmin, hf]

/-- C5 (amended): whenever the running average (`curTotalNum_` divided by
the live-entry count, integer division) exceeds `maxAverageNum_` after an
access is counted, every live entry's frequency is reduced by
`maxAverageNum_ / 2` and floored at 1, and each entry is repositioned into
the bucket of its new frequency; `minFreq_` is then recomputed as the
smallest non-empty bucket **when that is below 127** (the `INT8_MAX`
sentinel `updateMinFreq` scans from) — otherwise, and in particular when no
bucket is non-empty, it is set to 1. -/
theorem C5_lfu_aging_rescale (s : KLfuCache.State)
    (hnodup : NodupK s.nodeMap) (hlen : 0 < s.nodeMap.length)
    (htrigger : (s.curTotalNum + 1).tdiv (s.nodeMap.length : Int) > (s.maxAverageNum : Int)) :
    KLfuCache.addFreqNum s =
      KLfuCache.handleOverMaxAverageNum
        { s with
          curTotalNum := s.curTotalNum + 1
          curAverageNum := (s.curTotalNum + 1).tdiv (s.nodeMap.length : Int) } ∧
    (∀ j n, alookup j s.nodeMap = some n →
        alookup j (KLfuCache.addFreqNum s).nodeMap =
          some ⟨n.value,
            if n.freq - s.maxAverageNum / 2 < 1 then 1
            else n.freq - s.maxAverageNum / 2⟩) ∧
    (∀ j n, alookup j s.nodeMap = some n →
        j ∈ KLfuCache.bucketGet
            (if n.freq - s.maxAverageNum / 2 < 1 then 1 else n.freq - s.maxAverageNum / 2)
            (KLfuCache.addFreqNum s).freqToFreqList) ∧
    ((KLfuCache.addFreqNum s).minFreq =
      match smallestNonemptyBucket (KLfuCache.addFreqNum s).freqToFreqList with
      | none => 1
      | some f => if f < 127 then f else 1) := by
  have hlen0 : ¬ s.nodeMap.length = 0 := Nat.pos_iff_ne_zero.mp hlen
  have hne : ¬ s.nodeMap = [] := by
    intro h0
    rw [h0] at hlen
    simp at hlen
  have h1 : KLfuCache.addFreqNum s =
      KLfuCache.handleOverMaxAverageNum
        { s with
          curTotalNum := s.curTotalNum + 1
          curAverageNum := (s.curTotalNum + 1).tdiv (s.nodeMap.length : Int) } := by
    unfold KLfuCache.addFreqNum
    simp only [hlen0, if_false, ite_false, if_neg hlen0]
    rw [if_pos htrigger]
  have heq : KLfuCache.addFreqNum s =
      KLfuCache.updateMinFreq
        { s with
          curTotalNum := s.curTotalNum + 1
          curAverageNum := (s.curTotalNum + 1).tdiv (s.nodeMap.length : Int)
          nodeMap := s.nodeMap.map (fun p => (p.1,
            (⟨p.2.value, if p.2.freq - s.maxAverageNum / 2 < 1 then 1
                         else p.2.freq - s.maxAverageNum / 2⟩ : KLfuCache.LfuNode)))
          freqToFreqList := s.nodeMap.foldl (fun acc p =>
            KLfuCache.bucketAppend
              (if p.2.freq - s.maxAverageNum / 2 < 1 then 1
               else p.2.freq - s.maxAverageNum / 2)
              p.1 (KLfuCache.bucketRemove p.2.freq p.1 acc)) s.freqToFreqList } := by
    rw [h1]
    unfold KLfuCache.handleOverMaxAverageNum
    simp only [if_neg hne]
  refine ⟨h1, ?_, ?_, ?_⟩
  · intro j n hj
    rw [heq]
    show alookup j (s.nodeMap.map (fun p => (p.1,
        (⟨p.2.value, if p.2.freq - s.maxAverageNum / 2 < 1 then 1
                     else p.2.freq - s.maxAverageNum / 2⟩ : KLfuCache.LfuNode)))) = _
    rw [KLfuCache.alookup_aging_map, hj]
    rfl
  · intro j n hj
    rw [heq]
    show j ∈ KLfuCache.bucketGet _ (s.nodeMap.foldl (fun acc p =>
        KLfuCache.bucketAppend
          (if p.2.freq - s.maxAverageNum / 2 < 1 then 1
           else p.2.freq - s.maxAverageNum / 2)
          p.1 (KLfuCache.bucketRemove p.2.freq p.1 acc)) s.freqToFreqList)
    exact @KLfuCache.mem_bucket_fold
      (fun b => if b.freq - s.maxAverageNum / 2 < 1 then 1 else b.freq - s.maxAverageNum / 2)
      (fun b => b.freq) s.nodeMap s.freqToFreqList j n hnodup hj
  · rw [heq]
    have hfl : (KLfuCache.updateMinFreq
        { s with
          curTotalNum := s.curTotalNum + 1
          curAverageNum := (s.curTotalNum + 1).tdiv (s.nodeMap.length : Int)
          nodeMap := s.nodeMap.map (fun p => (p.1,
            (⟨p.2.value, if p.2.freq - s.maxAverageNum / 2 < 1 then 1
                         else p.2.freq - s.maxAverageNum / 2⟩ : KLfuCache.LfuNode)))
          freqToFreqList := s.nodeMap.foldl (fun acc p =>
            KLfuCache.bucketAppend
              (if p.2.freq - s.maxAverageNum / 2 < 1 then 1
               else p.2.freq - s.maxAverageNum / 2)
              p.1 (KLfuCache.bucketRemove p.2.freq p.1 acc)) s.freqToFreqList }).freqToFreqList
        = s.nodeMap.foldl (fun acc p =>
            KLfuCache.bucketAppend
              (if p.2.freq - s.maxAverageNum / 2 < 1 then 1
               else p.2.freq - s.maxAverageNum / 2)
              p.1 (KLfuCache.bucketRemove p.2.freq p.1 acc)) s.freqToFreqList := rfl
    rw [KLfuCache.updateMinFreq_minFreq, hfl]

/-- C5 witness: the aging theorem applied to the state after `put(1,10)` on
a capacity-1, `maxAverageNum = 1` cache, whose next counted access pushes
the running average to `2 > 1`. -/
theorem C5_lfu_aging_rescale_witness :
    0 < c5wit.nodeMap.length ∧
    (KLfuCache.addFreqNum c5wit).minFreq =
      match smallestNonemptyBucket (KLfuCache.addFreqNum c5wit).freqToFreqList with
      | none => 1
      | some f => if f < 127 then f else 1 :=
  ⟨by decide, (C5_lfu_aging_rescale c5wit
    (by show (akeys c5wit.nodeMap).Nodup; decide) (by decide) (by decide)).2.2.2⟩

/-- C5 counterexample: the claim says the rescale leaves `min_freq` equal to
the smallest non-empty bucket whenever one exists.  After `put(1,10)` and
126 hits at capacity 1 with `maxAverageNum = 1`, the last access triggers
the rescale (the stored average is `127 > 1`), the one live node sits in
bucket 127 — the smallest (indeed only) non-empty bucket — yet the code
leaves `minFreq_ = 1`, because `updateMinFreq`'s scan never went below its
`INT8_MAX` sentinel. -/
theorem C5_counterexample_sentinel_resets_minfreq :
    smallestNonemptyBucket
        (KLfuCache.run c5ops (KLfuCache.init 1 1)).freqToFreqList = some 127 ∧
    (KLfuCache.run c5ops (KLfuCache.init 1 1)).curAverageNum = 127 ∧
    (KLfuCache.run c5ops (KLfuCache.init 1 1)).minFreq = 1 := by
  exact ⟨by decide, by decide, by decide⟩

/-! ## Claim C10 — what the aging rescale does and does not touch -/

theorem akeys_map_payload {β γ : Type} (g : Nat × β → γ) (l : List (Nat × β)) :
    akeys (l.map (fun p => (p.1, g p))) = akeys l := by
  simp [akeys, List.map_map, Function.comp]

/-- C10 (amended): `handleOverMaxAverageNum` modifies only node frequencies,
bucket membership and `minFreq_`: it leaves `curTotalNum_`, the stored
`curAverageNum_`, the capacity, `maxAverageNum_`, and every entry's key and
value unchanged.  Consequently, once the running average exceeds
`max_average` it still exceeds it after the rescale, and every subsequent
counted access that leaves the live-entry count unchanged — every hit —
triggers a full rescale again.  (The triggering stops not only when
evictions or emptiness reduce `total_accesses`: an insertion that grows the
entry count can pull the average back under `max_average` as well, which is
what the counterexample shows against the claim's wording.) -/
theorem C10_lfu_aging_frame_and_retrigger :
    (∀ s : KLfuCache.State,
      (KLfuCache.handleOverMaxAverageNum s).curTotalNum = s.curTotalNum ∧
      (KLfuCache.handleOverMaxAverageNum s).curAverageNum = s.curAverageNum ∧
      (KLfuCache.handleOverMaxAverageNum s).capacity = s.capacity ∧
      (KLfuCache.handleOverMaxAverageNum s).maxAverageNum = s.maxAverageNum ∧
      akeys (KLfuCache.handleOverMaxAverageNum s).nodeMap = akeys s.nodeMap ∧
      (∀ j n, alookup j s.nodeMap = some n →
        ∃ nf, alookup j (KLfuCache.handleOverMaxAverageNum s).nodeMap
          = some ⟨n.value, nf⟩)) ∧
    (∀ s : KLfuCache.State,
      s.curAverageNum > (s.maxAverageNum : Int) →
      (KLfuCache.handleOverMaxAverageNum s).curAverageNum >
        ((KLfuCache.handleOverMaxAverageNum s).maxAverageNum : Int)) ∧
    (∀ s : KLfuCache.State,
      0 ≤ s.curTotalNum → 0 < s.nodeMap.length →
      s.curTotalNum.tdiv (s.nodeMap.length : Int) > (s.maxAverageNum : Int) →
      KLfuCache.addFreqNum s =
        KLfuCache.handleOverMaxAverageNum
          { s with
            curTotalNum := s.curTotalNum + 1
            curAverageNum := (s.curTotalNum + 1).tdiv (s.nodeMap.length : Int) }) := by
  have hframe : ∀ s : KLfuCache.State,
      (KLfuCache.handleOverMaxAverageNum s).curTotalNum = s.curTotalNum ∧
      (KLfuCache.handleOverMaxAverageNum s).curAverageNum = s.curAverageNum ∧
      (KLfuCache.handleOverMaxAverageNum s).capacity = s.capacity ∧
      (KLfuCache.handleOverMaxAverageNum s).maxAverageNum = s.maxAverageNum ∧
      akeys (KLfuCache.handleOverMaxAverageNum s).nodeMap = akeys s.nodeMap ∧
      (∀ j n, alookup j s.nodeMap = some n →
        ∃ nf, alookup j (KLfuCache.handleOverMaxAverageNum s).nodeMap
          = some ⟨n.value, nf⟩) := by
    intro s
    unfold KLfuCache.handleOverMaxAverageNum
    by_cases hne : s.nodeMap = []
    · rw [if_pos hne]
      exact ⟨rfl, rfl, rfl, rfl, rfl, fun j n hj => ⟨n.freq, hj⟩⟩
    · simp only [if_neg hne]
      refine ⟨rfl, rfl, rfl, rfl, ?_, ?_⟩
      · show akeys (s.nodeMap.map (fun p => (p.1,
          (⟨p.2.value, if p.2.freq - s.maxAverageNum / 2 < 1 then 1
                       else p.2.freq - s.maxAverageNum / 2⟩ : KLfuCache.LfuNode)))) = _
        exact akeys_map_payload _ s.nodeMap
      · intro j n hj
        refine ⟨if n.freq - s.maxAverageNum / 2 < 1 then 1
                else n.freq - s.maxAverageNum / 2, ?_⟩
        show alookup j (s.nodeMap.map (fun p => (p.1,
          (⟨p.2.value, if p.2.freq - s.maxAverageNum / 2 < 1 then 1
                       else p.2.freq - s.maxAverageNum / 2⟩ : KLfuCache.LfuNode)))) = _
        rw [KLfuCache.alookup_aging_map, hj]
        rfl
  refine ⟨hframe, ?_, ?_⟩
  · intro s hgt
    rw [(hframe s).2.1, (hframe s).2.2.2.1]
    exact hgt
  · intro s ht hlen htrigger
    have hlen0 : ¬ s.nodeMap.length = 0 := Nat.pos_iff_ne_zero.mp hlen
    have hcast : (0 : Int) < (s.nodeMap.length : Int) := by
      exact_mod_cast hlen
    have hmono : s.curTotalNum.tdiv (s.nodeMap.length : Int) ≤
        (s.curTotalNum + 1).tdiv (s.nodeMap.length : Int) := by
      rw [Int.tdiv_eq_ediv ht (Int.le_of_lt hcast),
        Int.tdiv_eq_ediv (by omega) (Int.le_of_lt hcast)]
      exact Int.ediv_le_ediv hcast (by omega)
    have htrigger' : (s.curTotalNum + 1).tdiv (s.nodeMap.length : Int) >
        (s.maxAverageNum : Int) := lt_of_lt_of_le htrigger hmono
    unfold KLfuCache.addFreqNum
    simp only [hlen0, if_false, ite_false, if_neg hlen0]
    rw [if_pos htrigger']

/-- C10 counterexample: the claim says the re-triggering continues "until
evictions (or emptiness) reduce total_accesses".  At capacity 2 with
`maxAverageNum = 2`, after `put(1,·), get(1), get(1)` the stored average is
`3 > 2` (a rescale has run and left key 1 at frequency 2).  The next
counted access, `put(2,·)`, evicts nothing and *increases* `curTotalNum_`
to 4, yet triggers no rescale — the new entry raised the entry count, so
the average fell to `4 / 2 = 2 ≤ 2`; a rescale would have dropped key 1's
frequency to `1 = max(1, 2 - 2/2)`. -/
theorem C10_counterexample_insertion_stops_retriggering :
    (KLfuCache.run c10ops (KLfuCache.init 2 2)).curAverageNum = 3 ∧
    (KLfuCache.run c10ops (KLfuCache.init 2 2)).maxAverageNum = 2 ∧
    alookup 1 (KLfuCache.run c10ops (KLfuCache.init 2 2)).nodeMap = some ⟨10, 2⟩ ∧
    (KLfuCache.step (.put 2 20) (KLfuCache.run c10ops (KLfuCache.init 2 2))).curTotalNum
      = 4 ∧
    (KLfuCache.step (.put 2 20)
        (KLfuCache.run c10ops (KLfuCache.init 2 2))).nodeMap.length = 2 ∧
    alookup 1 (KLfuCache.step (.put 2 20)
        (KLfuCache.run c10ops (KLfuCache.init 2 2))).nodeMap = some ⟨10, 2⟩ := by
  exact ⟨by decide, by decide, by decide, by decide, by decide, by decide⟩

/-- C10 witness: the retrigger conjunct applied to the state after
`put(1,·), get(1), get(1)` at capacity 2, `maxAverageNum = 2`, where the
computed average `3 / 1 = 3` already exceeds 2. -/
theorem C10_lfu_aging_frame_and_retrigger_witness :
    0 ≤ (KLfuCache.run c10ops (KLfuCache.init 2 2)).curTotalNum ∧
    KLfuCache.addFreqNum (KLfuCache.run c10ops (KLfuCache.init 2 2)) =
      KLfuCache.handleOverMaxAverageNum
        { KLfuCache.run c10ops (KLfuCache.init 2 2) with
          curTotalNum := (KLfuCache.run c10ops (KLfuCache.init 2 2)).curTotalNum + 1
          curAverageNum :=
            ((KLfuCache.run c10ops (KLfuCache.init 2 2)).curTotalNum + 1).tdiv
              (((KLfuCache.run c10ops (KLfuCache.init 2 2)).nodeMap.length : Int)) } :=
  ⟨by decide,
   C10_lfu_aging_frame_and_retrigger.2.2 (KLfuCache.run c10ops (KLfuCache.init 2 2))
     (by decide) (by decide) (by decide)⟩

/-! ## Claim C9 — ARC nodes start at access count 1 and promote on the
first hit -/

theorem alookup_eq_none_iff_not_mem_keys {β : Type} {k : Nat} {l : List (Nat × β)} :
    alookup k l = none ↔ k ∉ akeys l := by
  induction l with
  | nil => simp [alookup, akeys]
  | cons q t ih =>
    obtain ⟨a, b⟩ := q
    by_cases hak : a = k
    · subst hak
      simp [alookup, akeys]
    · rw [alookup, if_neg hak]
      simp only [akeys, List.map_cons, List.mem_cons]
      rw [ih]
      constructor
      · intro h hc
        rcases hc with hc | hc
        · exact hak hc.symm
        · exact h hc
      · intro h hc
        exact h (Or.inr hc)

theorem ArcLruPart.arcLru_checkGhost_none {k : Nat} {s : ArcLruPart.State}
    (h : alookup k s.ghost = none) : ArcLruPart.checkGhost k s = (false, s) := by
  unfold ArcLruPart.checkGhost
  rw [h]

theorem ArcLfuPart.arcLfu_checkGhost_none {k : Nat} {s : ArcLfuPart.State}
    (h : alookup k s.ghost = none) : ArcLfuPart.checkGhost k s = (false, s) := by
  unfold ArcLfuPart.checkGhost
  rw [h]

theorem KArcCache.checkGhostCaches_none {k : Nat} {s : KArcCache.State}
    (hl : alookup k s.lru.ghost = none) (hf : alookup k s.lfu.ghost = none) :
    KArcCache.checkGhostCaches k s = (false, s) := by
  unfold KArcCache.checkGhostCaches
  rw [ArcLruPart.arcLru_checkGhost_none hl, ArcLfuPart.arcLfu_checkGhost_none hf]

theorem ArcLruPart.evictLeastRecent_fields (s : ArcLruPart.State) :
    (ArcLruPart.evictLeastRecent s).capacity = s.capacity ∧
    (ArcLruPart.evictLeastRecent s).ghostCapacity = s.ghostCapacity ∧
    (ArcLruPart.evictLeastRecent s).transformThreshold = s.transformThreshold := by
  unfold ArcLruPart.evictLeastRecent ArcLruPart.removeOldestGhost
  split
  · exact ⟨rfl, rfl, rfl⟩
  · dsimp only
    split
    · split
      · exact ⟨rfl, rfl, rfl⟩
      · exact ⟨rfl, rfl, rfl⟩
    · exact ⟨rfl, rfl, rfl⟩

theorem ArcLruPart.evictLeastRecent_ghost_none {k : Nat} {s : ArcLruPart.State}
    (hg : alookup k s.ghost = none) (hm : alookup k s.main = none) :
    alookup k (ArcLruPart.evictLeastRecent s).ghost = none := by
  unfold ArcLruPart.evictLeastRecent
  cases hl : s.main.getLast? with
  | none => exact hg
  | some p =>
    obtain ⟨k0, n0⟩ := p
    have hk0 : k0 ∈ akeys s.main :=
      List.mem_map_of_mem Prod.fst (List.mem_of_mem_getLast? hl)
    have hkk0 : k0 ≠ k := by
      intro h0
      subst h0
      exact (alookup_eq_none_iff_not_mem_keys.mp hm) hk0
    have hgd : alookup k s.ghost.dropLast = none := by
      rw [alookup_eq_none_iff_not_mem_keys] at hg ⊢
      intro hk
      exact hg (List.Sublist.subset
        (List.Sublist.map Prod.fst (List.dropLast_sublist _)) hk)
    unfold ArcLruPart.removeOldestGhost
    by_cases hgc : s.ghost.length ≥ s.ghostCapacity <;>
      simp only [hgc, ite_true, ite_false]
    · cases hgl : s.ghost.getLast? with
      | none =>
        rw [alookup_cons_ne hkk0]
        exact hg
      | some q =>
        rw [alookup_cons_ne hkk0]
        exact hgd
    · rw [alookup_cons_ne hkk0]
      exact hg

theorem ArcLruPart.arcLru_addNewNode_main (k v : Nat) (s : ArcLruPart.State) :
    (ArcLruPart.addNewNode k v s).main =
      (k, ArcCache.mkArcNode v) ::
        (if s.main.length ≥ s.capacity then ArcLruPart.evictLeastRecent s else s).main :=
  rfl

theorem ArcLruPart.addNewNode_ghost (k v : Nat) (s : ArcLruPart.State) :
    (ArcLruPart.addNewNode k v s).ghost =
      (if s.main.length ≥ s.capacity then ArcLruPart.evictLeastRecent s else s).ghost :=
  rfl

theorem ArcLruPart.addNewNode_fields (k v : Nat) (s : ArcLruPart.State) :
    (ArcLruPart.addNewNode k v s).capacity = s.capacity ∧
    (ArcLruPart.addNewNode k v s).transformThreshold = s.transformThreshold := by
  unfold ArcLruPart.addNewNode
  by_cases h : s.main.length ≥ s.capacity
  · simp only [h, ite_true]
    exact ⟨(ArcLruPart.evictLeastRecent_fields s).1,
      (ArcLruPart.evictLeastRecent_fields s).2.2⟩
  · simp [h]

theorem ArcLruPart.put_not_mem {k : Nat} {s : ArcLruPart.State} (v : Nat)
    (hc : ¬ s.capacity = 0) (hk : alookup k s.main = none) :
    ArcLruPart.put k v s = (true, ArcLruPart.addNewNode k v s) := by
  unfold ArcLruPart.put
  rw [if_neg hc, hk]

theorem ArcLfuPart.updateNodeFrequency_frame (k : Nat) (n : ArcCache.ArcNode)
    (s : ArcLfuPart.State) :
    (ArcLfuPart.updateNodeFrequency k n s).ghost = s.ghost ∧
    (ArcLfuPart.updateNodeFrequency k n s).capacity = s.capacity ∧
    (ArcLfuPart.updateNodeFrequency k n s).main =
      aupdate k (fun _ => (⟨n.value, n.accessCount + 1⟩ : ArcCache.ArcNode)) s.main := by
  unfold ArcLfuPart.updateNodeFrequency
  dsimp only
  split
  · exact ⟨rfl, rfl, rfl⟩
  · exact ⟨rfl, rfl, rfl⟩

theorem ArcLfuPart.put_existing_frame {k : Nat} {s : ArcLfuPart.State}
    {n : ArcCache.ArcNode} (v : Nat) (hc : ¬ s.capacity = 0)
    (hk : alookup k s.main = some n) :
    (ArcLfuPart.put k v s).2.ghost = s.ghost ∧
    (ArcLfuPart.put k v s).2.capacity = s.capacity := by
  unfold ArcLfuPart.put
  rw [if_neg hc, hk]
  exact ⟨(ArcLfuPart.updateNodeFrequency_frame k _ _).1,
    (ArcLfuPart.updateNodeFrequency_frame k _ _).2.1⟩

theorem ArcLfuPart.arcLfu_addNewNode_main (k v : Nat) (s : ArcLfuPart.State) :
    (ArcLfuPart.addNewNode k v s).main =
      (k, ArcCache.mkArcNode v) ::
        (if s.main.length ≥ s.capacity then ArcLfuPart.evictLeastFrequent s else s).main :=
  rfl

theorem ArcLfuPart.put_holds_value {k : Nat} {s : ArcLfuPart.State} (v : Nat)
    (hc : ¬ s.capacity = 0) :
    ∃ m : ArcCache.ArcNode,
      alookup k (ArcLfuPart.put k v s).2.main = some m ∧ m.value = v := by
  unfold ArcLfuPart.put
  rw [if_neg hc]
  cases hk : alookup k s.main with
  | some n =>
    refine ⟨⟨v, n.accessCount + 1⟩, ?_, rfl⟩
    dsimp only
    rw [(ArcLfuPart.updateNodeFrequency_frame k _ _).2.2, alookup_aupdate_self,
      alookup_aupdate_self, hk]
    rfl
  | none =>
    refine ⟨ArcCache.mkArcNode v, ?_, rfl⟩
    dsimp only
    rw [ArcLfuPart.arcLfu_addNewNode_main, alookup_cons_self]

/-- C9: every ARC node is constructed with access count 1
(`ArcNode::accessCount_(1)`), and `updateNodeAccess` increments the count
*before* comparing it with `transformThreshold_`; so with the default
threshold 2, one `get` hit on a freshly inserted entry already reaches the
threshold and inserts the entry into the LFU half — promotion takes one
post-insertion hit, not two. -/
theorem C9_arc_promotes_after_single_hit :
    (∀ v, (ArcCache.mkArcNode v).accessCount = 1) ∧
    (∀ (s : ArcLruPart.State) (k : Nat) (n : ArcCache.ArcNode),
        alookup k s.main = some n →
        (ArcLruPart.get k s).1 =
          some (n.value, decide (n.accessCount + 1 ≥ s.transformThreshold)) ∧
        alookup k (ArcLruPart.get k s).2.main = some ⟨n.value, n.accessCount + 1⟩) ∧
    (∀ (s : KArcCache.State) (k v : Nat),
        s.lru.transformThreshold = 2 →
        ¬ s.lru.capacity = 0 → ¬ s.lfu.capacity = 0 →
        alookup k s.lru.ghost = none → alookup k s.lfu.ghost = none →
        alookup k s.lru.main = none →
        (KArcCache.get k (KArcCache.put k v s)).1 = some v ∧
        (∃ m : ArcCache.ArcNode,
          alookup k (KArcCache.get k (KArcCache.put k v s)).2.lfu.main = some m ∧
          m.value = v)) := by
  refine ⟨fun v => rfl, ?_, ?_⟩
  · intro s k n hk
    unfold ArcLruPart.get
    rw [hk]
    refine ⟨rfl, ?_⟩
    dsimp only
    rw [alookup_cons_self]
  · intro s k v hth hcl hcf hgl hgf hkm
    have hcg1 : KArcCache.checkGhostCaches k s = (false, s) :=
      KArcCache.checkGhostCaches_none hgl hgf
    have hput : KArcCache.put k v s =
        ⟨ArcLruPart.addNewNode k v s.lru,
          if ArcLfuPart.contain k s.lfu then (ArcLfuPart.put k v s.lfu).2 else s.lfu⟩ := by
      unfold KArcCache.put
      rw [hcg1]
      dsimp only
      rw [ArcLruPart.put_not_mem v hcl hkm]
      by_cases hin : ArcLfuPart.contain k s.lfu <;> simp [hin]
    have hmainP : alookup k (ArcLruPart.addNewNode k v s.lru).main =
        some (ArcCache.mkArcNode v) := by
      rw [ArcLruPart.arcLru_addNewNode_main, alookup_cons_self]
    have hthP : (ArcLruPart.addNewNode k v s.lru).transformThreshold = 2 :=
      (ArcLruPart.addNewNode_fields k v s.lru).2.trans hth
    have hglP : alookup k (ArcLruPart.addNewNode k v s.lru).ghost = none := by
      rw [ArcLruPart.addNewNode_ghost]
      by_cases hev : s.lru.main.length ≥ s.lru.capacity
      · simp only [hev, ite_true]
        exact ArcLruPart.evictLeastRecent_ghost_none hgl hkm
      · simp only [hev, ite_false]
        exact hgl
    have hgfP : alookup k
        (if ArcLfuPart.contain k s.lfu then (ArcLfuPart.put k v s.lfu).2
         else s.lfu).ghost = none := by
      by_cases hin : ArcLfuPart.contain k s.lfu
      · simp only [hin, ite_true]
        have hex : ∃ n, alookup k s.lfu.main = some n := by
          unfold ArcLfuPart.contain at hin
          rcases hv : alookup k s.lfu.main with _ | n
          · rw [hv] at hin
            simp at hin
          · exact ⟨n, rfl⟩
        obtain ⟨n, hn⟩ := hex
        rw [(ArcLfuPart.put_existing_frame v hcf hn).1]
        exact hgf
      · simp only [hin, ite_false]
        exact hgf
    have hcfP : ¬ (if ArcLfuPart.contain k s.lfu then (ArcLfuPart.put k v s.lfu).2
        else s.lfu).capacity = 0 := by
      by_cases hin : ArcLfuPart.contain k s.lfu
      · simp only [hin, ite_true]
        have hex : ∃ n, alookup k s.lfu.main = some n := by
          unfold ArcLfuPart.contain at hin
          rcases hv : alookup k s.lfu.main with _ | n
          · rw [hv] at hin
            simp at hin
          · exact ⟨n, rfl⟩
        obtain ⟨n, hn⟩ := hex
        rw [(ArcLfuPart.put_existing_frame v hcf hn).2]
        exact hcf
      · simp only [hin, ite_false]
        exact hcf
    have hget : KArcCache.get k
        (⟨ArcLruPart.addNewNode k v s.lru,
          if ArcLfuPart.contain k s.lfu then (ArcLfuPart.put k v s.lfu).2
          else s.lfu⟩ : KArcCache.State) =
        (some v,
          ⟨(ArcLruPart.get k (ArcLruPart.addNewNode k v s.lru)).2,
           (ArcLfuPart.put k v
             (if ArcLfuPart.contain k s.lfu then (ArcLfuPart.put k v s.lfu).2
              else s.lfu)).2⟩) := by
      have hd : decide ((ArcCache.mkArcNode v).accessCount + 1 ≥
          (ArcLruPart.addNewNode k v s.lru).transformThreshold) = true := by
        rw [hthP]
        rfl
      have hlruget : ArcLruPart.get k (ArcLruPart.addNewNode k v s.lru) =
          (some (v, true),
           { ArcLruPart.addNewNode k v s.lru with
             main := (k, (⟨v, 2⟩ : ArcCache.ArcNode)) ::
               aerase k (ArcLruPart.addNewNode k v s.lru).main }) := by
        unfold ArcLruPart.get
        rw [hmainP]
        dsimp only
        rw [hd]
        rfl
      unfold KArcCache.get
      rw [KArcCache.checkGhostCaches_none hglP hgfP]
      dsimp only
      rw [hlruget]
      rfl
    rw [hput, hget]
    exact ⟨rfl, ArcLfuPart.put_holds_value v hcfP⟩

/-- C9 witness: the end-to-end conjunct applied to a fresh
`KArcCache(capacity = 4, transformThreshold = 2)` with `put(1,5)` followed
by a single `get(1)`. -/
theorem C9_arc_promotes_after_single_hit_witness :
    (KArcCache.get 1 (KArcCache.put 1 5 (KArcCache.init 4 2))).1 = some 5 ∧
    (∃ m : ArcCache.ArcNode,
      alookup 1 (KArcCache.get 1 (KArcCache.put 1 5 (KArcCache.init 4 2))).2.lfu.main
        = some m ∧ m.value = 5) :=
  C9_arc_promotes_after_single_hit.2.2 (KArcCache.init 4 2) 1 5 rfl
    (by decide) (by decide) rfl rfl rfl

/-! ## Claim C7 — the ghost-driven capacity transfer -/

theorem length_aerase_of_mem {β : Type} {k : Nat} {l : List (Nat × β)}
    (h : k ∈ akeys l) : (aerase k l).length + 1 = l.length := by
  induction l with
  | nil => simp [akeys] at h
  | cons q t ih =>
    obtain ⟨a, b⟩ := q
    by_cases hak : a = k
    · simp [aerase, hak]
    · simp only [akeys, List.map_cons, List.mem_cons] at h
      rcases h with h | h
      · exact absurd h.symm hak
      · simp only [aerase, if_neg hak, List.length_cons]
        rw [← ih h]

theorem ArcLfuPart.evictLeastFrequent_fields (s : ArcLfuPart.State) :
    (ArcLfuPart.evictLeastFrequent s).capacity = s.capacity ∧
    (ArcLfuPart.evictLeastFrequent s).ghostCapacity = s.ghostCapacity ∧
    (ArcLfuPart.evictLeastFrequent s).transformThreshold = s.transformThreshold := by
  unfold ArcLfuPart.evictLeastFrequent ArcLfuPart.removeOldestGhost
  dsimp only
  repeat' split
  all_goals exact ⟨rfl, rfl, rfl⟩

theorem ArcLfuPart.evictLeastFrequent_main_length {s : ArcLfuPart.State}
    (h : ArcLfuPart.EvictReady s) :
    (ArcLfuPart.evictLeastFrequent s).main.length + 1 = s.main.length := by
  obtain ⟨k0, rest, hb, hk0⟩ := h
  have hfm : ¬ s.freqMap = [] := by
    intro h0
    rw [h0] at hb
    simp [ArcLfuPart.fGet, alookup] at hb
  unfold ArcLfuPart.evictLeastFrequent
  rw [if_neg hfm, hb]
  dsimp only
  have hmain : ∀ s2 : ArcLfuPart.State, s2.main = s.main →
      (if s2.ghost.length ≥ s2.ghostCapacity then ArcLfuPart.removeOldestGhost s2
        else s2).main = s.main := by
    intro s2 h2
    unfold ArcLfuPart.removeOldestGhost
    split
    · split
      · exact h2
      · exact h2
    · exact h2
  split <;>
    · refine Eq.trans
        (congrArg (fun t => (aerase k0 t).length + 1) (hmain _ (by exact rfl))) ?_
      exact length_aerase_of_mem hk0

theorem ArcLruPart.evictLeastRecent_main_length {s : ArcLruPart.State}
    (h : ¬ s.main = []) :
    (ArcLruPart.evictLeastRecent s).main.length + 1 = s.main.length := by
  unfold ArcLruPart.evictLeastRecent
  cases hl : s.main.getLast? with
  | none => exact absurd (List.getLast?_eq_none_iff.mp hl) h
  | some p =>
    obtain ⟨k0, n0⟩ := p
    dsimp only
    have hmain : ∀ s2 : ArcLruPart.State, s2.main = s.main.dropLast →
        (if s2.ghost.length ≥ s2.ghostCapacity then ArcLruPart.removeOldestGhost s2
          else s2).main = s.main.dropLast := by
      intro s2 h2
      unfold ArcLruPart.removeOldestGhost
      split
      · split
        · exact h2
        · exact h2
      · exact h2
    have hm := hmain { s with main := s.main.dropLast } rfl
    rw [hm, List.length_dropLast]
    have : 0 < s.main.length := List.length_pos.mpr h
    omega

theorem ArcLruPart.arcLru_checkGhost_some {k : Nat} {s : ArcLruPart.State}
    {g : ArcCache.ArcNode} (h : alookup k s.ghost = some g) :
    ArcLruPart.checkGhost k s = (true, { s with ghost := aerase k s.ghost }) := by
  unfold ArcLruPart.checkGhost
  rw [h]

theorem ArcLfuPart.arcLfu_checkGhost_some {k : Nat} {s : ArcLfuPart.State}
    {g : ArcCache.ArcNode} (h : alookup k s.ghost = some g) :
    ArcLfuPart.checkGhost k s = (true, { s with ghost := aerase k s.ghost }) := by
  unfold ArcLfuPart.checkGhost
  rw [h]

theorem ArcLfuPart.arcLfu_decreaseCapacity_zero {s : ArcLfuPart.State}
    (hc : s.capacity = 0) : ArcLfuPart.decreaseCapacity s = (false, s) := by
  unfold ArcLfuPart.decreaseCapacity
  rw [if_pos hc]

theorem ArcLruPart.arcLru_decreaseCapacity_zero {s : ArcLruPart.State}
    (hc : s.capacity = 0) : ArcLruPart.decreaseCapacity s = (false, s) := by
  unfold ArcLruPart.decreaseCapacity
  rw [if_pos hc]

theorem ArcLfuPart.arcLfu_decreaseCapacity_of_pos {s : ArcLfuPart.State}
    (hc : ¬ s.capacity = 0) :
    (ArcLfuPart.decreaseCapacity s).1 = true ∧
    (ArcLfuPart.decreaseCapacity s).2.capacity = s.capacity - 1 ∧
    (s.main.length = s.capacity → ArcLfuPart.EvictReady s →
      (ArcLfuPart.decreaseCapacity s).2.main.length + 1 = s.main.length) ∧
    (¬ s.main.length = s.capacity →
      (ArcLfuPart.decreaseCapacity s).2.main = s.main) := by
  unfold ArcLfuPart.decreaseCapacity
  rw [if_neg hc]
  dsimp only
  refine ⟨rfl, ?_, ?_, ?_⟩
  · by_cases hlen : s.main.length = s.capacity
    · rw [if_pos hlen, (ArcLfuPart.evictLeastFrequent_fields s).1]
    · rw [if_neg hlen]
  · intro hlen hready
    rw [if_pos hlen]
    exact ArcLfuPart.evictLeastFrequent_main_length hready
  · intro hlen
    rw [if_neg hlen]

theorem ArcLruPart.arcLru_decreaseCapacity_of_pos {s : ArcLruPart.State}
    (hc : ¬ s.capacity = 0) :
    (ArcLruPart.decreaseCapacity s).1 = true ∧
    (ArcLruPart.decreaseCapacity s).2.capacity = s.capacity - 1 ∧
    (s.main.length = s.capacity →
      (ArcLruPart.decreaseCapacity s).2.main.length + 1 = s.main.length) ∧
    (¬ s.main.length = s.capacity →
      (ArcLruPart.decreaseCapacity s).2.main = s.main) := by
  unfold ArcLruPart.decreaseCapacity
  rw [if_neg hc]
  dsimp only
  refine ⟨rfl, ?_, ?_, ?_⟩
  · by_cases hlen : s.main.length = s.capacity
    · rw [if_pos hlen, (ArcLruPart.evictLeastRecent_fields s).1]
    · rw [if_neg hlen]
  · intro hlen
    rw [if_pos hlen]
    refine ArcLruPart.evictLeastRecent_main_length ?_
    intro h0
    rw [h0] at hlen
    simp at hlen
    exact hc hlen.symm
  · intro hlen
    rw [if_neg hlen]

theorem ArcLruPart.arcLru_put_capacity (k v : Nat) (s : ArcLruPart.State) :
    (ArcLruPart.put k v s).2.capacity = s.capacity := by
  unfold ArcLruPart.put
  by_cases hc : s.capacity = 0
  · rw [if_pos hc]
  · rw [if_neg hc]
    cases alookup k s.main with
    | some n => rfl
    | none => exact (ArcLruPart.addNewNode_fields k v s).1

theorem ArcLruPart.arcLru_get_capacity (k : Nat) (s : ArcLruPart.State) :
    (ArcLruPart.get k s).2.capacity = s.capacity := by
  unfold ArcLruPart.get
  cases alookup k s.main with
  | some n => rfl
  | none => rfl

theorem ArcLfuPart.addNewNode_capacity (k v : Nat) (s : ArcLfuPart.State) :
    (ArcLfuPart.addNewNode k v s).capacity = s.capacity := by
  unfold ArcLfuPart.addNewNode
  dsimp only
  by_cases hev : s.main.length ≥ s.capacity
  · rw [if_pos hev]
    exact (ArcLfuPart.evictLeastFrequent_fields s).1
  · rw [if_neg hev]

theorem ArcLfuPart.arcLfu_put_capacity (k v : Nat) (s : ArcLfuPart.State) :
    (ArcLfuPart.put k v s).2.capacity = s.capacity := by
  unfold ArcLfuPart.put
  by_cases hc : s.capacity = 0
  · rw [if_pos hc]
  · rw [if_neg hc]
    cases alookup k s.main with
    | some n => exact (ArcLfuPart.updateNodeFrequency_frame k _ _).2.1
    | none => exact ArcLfuPart.addNewNode_capacity k v s

theorem ArcLfuPart.arcLfu_get_capacity (k : Nat) (s : ArcLfuPart.State) :
    (ArcLfuPart.get k s).2.capacity = s.capacity := by
  unfold ArcLfuPart.get
  cases alookup k s.main with
  | some n => exact (ArcLfuPart.updateNodeFrequency_frame k _ _).2.1
  | none => rfl

/-- C7: the ghost-driven capacity transfer.  All capacity changes of an ARC
`put`/`get` happen in the `checkGhostCaches` prologue; when the key sits in
the LRU half's ghost list, it is removed from that ghost list, the LFU
half's capacity is decremented (first evicting one LFU entry when the LFU
main cache is exactly at its old capacity), and the LRU half's capacity is
incremented — but only if the decrement succeeded, i.e. the LFU capacity
was positive.  The mirrored transfer happens when the key is found in the
LFU half's ghost list instead. -/
theorem C7_arc_ghost_driven_capacity_transfer :
    (∀ (k v : Nat) (s : KArcCache.State),
      (KArcCache.put k v s).lru.capacity =
        (KArcCache.checkGhostCaches k s).2.lru.capacity ∧
      (KArcCache.put k v s).lfu.capacity =
        (KArcCache.checkGhostCaches k s).2.lfu.capacity) ∧
    (∀ (k : Nat) (s : KArcCache.State),
      (KArcCache.get k s).2.lru.capacity =
        (KArcCache.checkGhostCaches k s).2.lru.capacity ∧
      (KArcCache.get k s).2.lfu.capacity =
        (KArcCache.checkGhostCaches k s).2.lfu.capacity) ∧
    (∀ (k : Nat) (s : KArcCache.State) (g : ArcCache.ArcNode),
      alookup k s.lru.ghost = some g →
      (KArcCache.checkGhostCaches k s).1 = true ∧
      (KArcCache.checkGhostCaches k s).2.lru.ghost = aerase k s.lru.ghost ∧
      (s.lfu.capacity = 0 →
        (KArcCache.checkGhostCaches k s).2.lfu = s.lfu ∧
        (KArcCache.checkGhostCaches k s).2.lru.capacity = s.lru.capacity) ∧
      (¬ s.lfu.capacity = 0 →
        (KArcCache.checkGhostCaches k s).2.lfu.capacity = s.lfu.capacity - 1 ∧
        (KArcCache.checkGhostCaches k s).2.lru.capacity = s.lru.capacity + 1 ∧
        (s.lfu.main.length = s.lfu.capacity → ArcLfuPart.EvictReady s.lfu →
          (KArcCache.checkGhostCaches k s).2.lfu.main.length + 1
            = s.lfu.main.length) ∧
        (¬ s.lfu.main.length = s.lfu.capacity →
          (KArcCache.checkGhostCaches k s).2.lfu.main = s.lfu.main))) ∧
    (∀ (k : Nat) (s : KArcCache.State) (g : ArcCache.ArcNode),
      alookup k s.lru.ghost = none →
      alookup k s.lfu.ghost = some g →
      (KArcCache.checkGhostCaches k s).1 = true ∧
      (KArcCache.checkGhostCaches k s).2.lfu.ghost = aerase k s.lfu.ghost ∧
      (s.lru.capacity = 0 →
        (KArcCache.checkGhostCaches k s).2.lru = s.lru ∧
        (KArcCache.checkGhostCaches k s).2.lfu.capacity = s.lfu.capacity) ∧
      (¬ s.lru.capacity = 0 →
        (KArcCache.checkGhostCaches k s).2.lru.capacity = s.lru.capacity - 1 ∧
        (KArcCache.checkGhostCaches k s).2.lfu.capacity = s.lfu.capacity + 1 ∧
        (s.lru.main.length = s.lru.capacity →
          (KArcCache.checkGhostCaches k s).2.lru.main.length + 1
            = s.lru.main.length) ∧
        (¬ s.lru.main.length = s.lru.capacity →
          (KArcCache.checkGhostCaches k s).2.lru.main = s.lru.main))) := by
  refine ⟨?_, ?_, ?_, ?_⟩
  · intro k v s
    unfold KArcCache.put
    dsimp only
    by_cases hin : ArcLfuPart.contain k (KArcCache.checkGhostCaches k s).2.lfu
    · simp only [hin, ite_true]
      exact ⟨ArcLruPart.arcLru_put_capacity k v _, ArcLfuPart.arcLfu_put_capacity k v _⟩
    · simp only [hin, ite_false]
      exact ⟨ArcLruPart.arcLru_put_capacity k v _, rfl⟩
  · intro k s
    unfold KArcCache.get
    dsimp only
    rcases hg : ArcLruPart.get k (KArcCache.checkGhostCaches k s).2.lru with ⟨r, lru2⟩
    have hcap2 : lru2.capacity = (KArcCache.checkGhostCaches k s).2.lru.capacity := by
      have := ArcLruPart.arcLru_get_capacity k (KArcCache.checkGhostCaches k s).2.lru
      rw [hg] at this
      exact this
    cases r with
    | none =>
      rcases hf : ArcLfuPart.get k (KArcCache.checkGhostCaches k s).2.lfu with ⟨rf, lfu2⟩
      have hcapf : lfu2.capacity = (KArcCache.checkGhostCaches k s).2.lfu.capacity := by
        have := ArcLfuPart.arcLfu_get_capacity k (KArcCache.checkGhostCaches k s).2.lfu
        rw [hf] at this
        exact this
      simp only [hf]
      exact ⟨by simp, hcapf⟩
    | some p =>
      obtain ⟨v, shouldTransform⟩ := p
      cases shouldTransform with
      | true => exact ⟨hcap2, ArcLfuPart.arcLfu_put_capacity k v _⟩
      | false => exact ⟨hcap2, rfl⟩
  · intro k s g hg
    unfold KArcCache.checkGhostCaches
    rw [ArcLruPart.arcLru_checkGhost_some hg]
    by_cases hc : s.lfu.capacity = 0
    · rw [ArcLfuPart.arcLfu_decreaseCapacity_zero hc]
      exact ⟨rfl, rfl, fun _ => ⟨rfl, rfl⟩, fun hcon => absurd hc hcon⟩
    · have hdec := ArcLfuPart.arcLfu_decreaseCapacity_of_pos hc
      rcases hd : ArcLfuPart.decreaseCapacity s.lfu with ⟨flag, lfu1⟩
      rw [hd] at hdec
      obtain ⟨hflag, hcap, hev, hnev⟩ := hdec
      subst hflag
      refine ⟨rfl, rfl, fun hcon => absurd hcon hc, fun _ => ⟨hcap, rfl, hev, hnev⟩⟩
  · intro k s g hgl hgf
    unfold KArcCache.checkGhostCaches
    rw [ArcLruPart.arcLru_checkGhost_none hgl, ArcLfuPart.arcLfu_checkGhost_some hgf]
    by_cases hc : s.lru.capacity = 0
    · rw [ArcLruPart.arcLru_decreaseCapacity_zero hc]
      exact ⟨rfl, rfl, fun _ => ⟨rfl, rfl⟩, fun hcon => absurd hc hcon⟩
    · have hdec := ArcLruPart.arcLru_decreaseCapacity_of_pos hc
      rcases hd : ArcLruPart.decreaseCapacity s.lru with ⟨flag, lru1⟩
      rw [hd] at hdec
      obtain ⟨hflag, hcap, hev, hnev⟩ := hdec
      subst hflag
      refine ⟨rfl, rfl, fun hcon => absurd hcon hc, fun _ => ⟨hcap, rfl, hev, hnev⟩⟩

/-- C7 witness: the LRU-ghost branch of the transfer theorem applied to the
state after `put(1,5), put(2,6)` on a capacity-1 ARC cache, where key 1
sits in the LRU half's ghost list and the LFU half's capacity is 1. -/
theorem C7_arc_ghost_driven_capacity_transfer_witness :
    (KArcCache.checkGhostCaches 1 arcWit).1 = true ∧
    (KArcCache.checkGhostCaches 1 arcWit).2.lfu.capacity = arcWit.lfu.capacity - 1 ∧
    (KArcCache.checkGhostCaches 1 arcWit).2.lru.capacity = arcWit.lru.capacity + 1 :=
  ⟨(C7_arc_ghost_driven_capacity_transfer.2.2.1 1 arcWit ⟨5, 1⟩ (by decide)).1,
   ((C7_arc_ghost_driven_capacity_transfer.2.2.1 1 arcWit ⟨5, 1⟩ (by decide)).2.2.2
      (by decide)).1,
   ((C7_arc_ghost_driven_capacity_transfer.2.2.1 1 arcWit ⟨5, 1⟩ (by decide)).2.2.2
      (by decide)).2.1⟩

/-! ## Claim C8 — behaviour of every policy at capacity 0 -/

theorem KLruCache.lru_run_zero_fix (ops : List KLruCache.Op) :
    KLruCache.run ops (KLruCache.init 0) = KLruCache.init 0 := by
  induction ops with
  | nil => rfl
  | cons op t ih =>
    have hstep : KLruCache.step op (KLruCache.init 0) = KLruCache.init 0 := by
      cases op with
      | put k v => rfl
      | get k => rfl
      | remove k => rfl
    show KLruCache.run t (KLruCache.step op (KLruCache.init 0)) = KLruCache.init 0
    rw [hstep]
    exact ih

theorem KLfuCache.lfu_run_zero_fix (ops : List KLfuCache.Op) (m : Nat) :
    KLfuCache.run ops (KLfuCache.init 0 m) = KLfuCache.init 0 m := by
  induction ops with
  | nil => rfl
  | cons op t ih =>
    have hstep : KLfuCache.step op (KLfuCache.init 0 m) = KLfuCache.init 0 m := by
      cases op with
      | put k v => rfl
      | get k => rfl
      | purge => rfl
    show KLfuCache.run t (KLfuCache.step op (KLfuCache.init 0 m)) = KLfuCache.init 0 m
    rw [hstep]
    exact ih

theorem KArcCache.arc_run_zero_fix (ops : List KArcCache.Op) (t : Nat) :
    KArcCache.run ops (KArcCache.init 0 t) = KArcCache.init 0 t := by
  induction ops with
  | nil => rfl
  | cons op rest ih =>
    have hstep : KArcCache.step op (KArcCache.init 0 t) = KArcCache.init 0 t := by
      cases op with
      | put k v => rfl
      | get k => rfl
    show KArcCache.run rest (KArcCache.step op (KArcCache.init 0 t)) = KArcCache.init 0 t
    rw [hstep]
    exact ih

theorem KLruKCache.run_zero_main_empty (hc kk : Nat) (ops : List KLruKCache.Op) :
    (KLruKCache.run ops (KLruKCache.init 0 hc kk)).main = KLruCache.init 0 := by
  suffices h : ∀ (ops : List KLruKCache.Op) (s : KLruKCache.State),
      s.main = KLruCache.init 0 → (KLruKCache.run ops s).main = KLruCache.init 0 by
    exact h ops _ rfl
  intro ops
  induction ops with
  | nil => exact fun s hs => hs
  | cons op t ih =>
    intro s hs
    refine ih _ ?_
    have hget : KLruCache.get 0 s.main = (none, s.main) := by
      rw [hs]
      rfl
    cases op with
    | put k v =>
      show (KLruKCache.put k v s).main = KLruCache.init 0
      unfold KLruKCache.put
      rw [show KLruCache.get k s.main = (none, s.main) by rw [hs]; rfl]
      dsimp only
      by_cases hk : (KLruCache.getValue k s.historyList).1 + 1 ≥ s.k
      · rw [if_pos hk]
        show KLruCache.put k v s.main = KLruCache.init 0
        rw [hs]
        rfl
      · rw [if_neg hk]
        exact hs
    | get k =>
      show (KLruKCache.get k s).2.main = KLruCache.init 0
      unfold KLruKCache.get
      rw [show KLruCache.get k s.main = (none, s.main) by rw [hs]; rfl]
      dsimp only
      by_cases hk : (KLruCache.getValue k s.historyList).1 + 1 ≥ s.k
      · rw [if_pos hk]
        cases hv : alookup k s.historyValueMap with
        | some sv =>
          dsimp only
          show KLruCache.put k sv s.main = KLruCache.init 0
          rw [hs]
          rfl
        | none => exact hs
      · rw [if_neg hk]
        exact hs

/-- C8 (amended): for LRU, LFU and ARC constructed with capacity 0, after
any sequence of prior operations `put` is a no-op leaving the (initial)
state unchanged — `ArcLruPart::put` reporting `false` — and `get` always
misses without touching the state.  For LRU-K with main capacity 0, the
admitted main cache stays empty forever, but `put` is *not* a no-op: it
still records the history counter and the pending value, and a later `get`
whose history count reaches `k` returns the pending value instead of
missing (the counterexample). -/
theorem C8_capacity_zero_behaviour :
    (∀ (ops : List KLruCache.Op) (k v : Nat),
      KLruCache.put k v (KLruCache.run ops (KLruCache.init 0))
        = KLruCache.run ops (KLruCache.init 0) ∧
      (KLruCache.get k (KLruCache.run ops (KLruCache.init 0))).1 = none ∧
      (KLruCache.get k (KLruCache.run ops (KLruCache.init 0))).2
        = KLruCache.run ops (KLruCache.init 0)) ∧
    (∀ (m : Nat) (ops : List KLfuCache.Op) (k v : Nat),
      KLfuCache.put k v (KLfuCache.run ops (KLfuCache.init 0 m))
        = KLfuCache.run ops (KLfuCache.init 0 m) ∧
      (KLfuCache.get k (KLfuCache.run ops (KLfuCache.init 0 m))).1 = none ∧
      (KLfuCache.get k (KLfuCache.run ops (KLfuCache.init 0 m))).2
        = KLfuCache.run ops (KLfuCache.init 0 m)) ∧
    (∀ (t : Nat) (ops : List KArcCache.Op) (k v : Nat),
      KArcCache.put k v (KArcCache.run ops (KArcCache.init 0 t))
        = KArcCache.run ops (KArcCache.init 0 t) ∧
      (ArcLruPart.put k v (KArcCache.run ops (KArcCache.init 0 t)).lru).1 = false ∧
      (ArcLfuPart.put k v (KArcCache.run ops (KArcCache.init 0 t)).lfu).1 = false ∧
      (KArcCache.get k (KArcCache.run ops (KArcCache.init 0 t))).1 = none ∧
      (KArcCache.get k (KArcCache.run ops (KArcCache.init 0 t))).2
        = KArcCache.run ops (KArcCache.init 0 t)) ∧
    (∀ (hc kk : Nat) (ops : List KLruKCache.Op),
      (KLruKCache.run ops (KLruKCache.init 0 hc kk)).main = KLruCache.init 0) := by
  refine ⟨?_, ?_, ?_, KLruKCache.run_zero_main_empty⟩
  · intro ops k v
    rw [KLruCache.lru_run_zero_fix]
    exact ⟨rfl, rfl, rfl⟩
  · intro m ops k v
    rw [KLfuCache.lfu_run_zero_fix]
    exact ⟨rfl, rfl, rfl⟩
  · intro t ops k v
    rw [KArcCache.arc_run_zero_fix]
    exact ⟨rfl, rfl, rfl, rfl, rfl⟩

/-- C8 counterexample: the claim says every policy at capacity 0 treats
`put` as a no-op and `get` as a guaranteed miss.  An LRU-K cache with main
capacity 0 (history capacity 1, k = 2) returns the pending value: after
`put(7,5)`, the `get(7)` reaches the history threshold and yields
`some 5`, not a miss. -/
theorem C8_counterexample_lruk_returns_pending_at_zero_capacity :
    (KLruKCache.get 7 (KLruKCache.put 7 5 (KLruKCache.init 0 1 2))).1 = some 5 := by
  decide

/-! ## Claim C1 — put-get coherence -/

theorem akeys_subset_of_sublist {β : Type} {l l' : List (Nat × β)}
    (hs : l'.Sublist l) : ∀ a ∈ akeys l', a ∈ akeys l :=
  fun _ ha => List.Sublist.subset (List.Sublist.map Prod.fst hs) ha

theorem allval_aupdate_const {β : Type} {val : β → Nat} {k vn j : Nat} {n' : β}
    {l : List (Nat × β)} (h : AllVal val k vn l) (hj : j = k → val n' = vn) :
    AllVal val k vn (aupdate j (fun _ => n') l) := by
  intro p hp hk
  rcases mem_aupdate hp with hm | ⟨c, _, hkj, hp2⟩
  · exact h p hm hk
  · rw [hp2]
    exact hj (hkj ▸ hk)

theorem allval_aupdate_self_of_nodup {β : Type} {val : β → Nat} {k vn : Nat} {n' : β}
    {l : List (Nat × β)} (hnd : NodupK l) (hval : val n' = vn) :
    AllVal val k vn (aupdate k (fun _ => n') l) := by
  induction l with
  | nil => exact allval_nil val k vn
  | cons q t ih =>
    obtain ⟨a, b⟩ := q
    simp only [NodupK, akeys, List.map_cons, List.nodup_cons] at hnd
    by_cases hak : a = k
    · subst hak
      simp only [aupdate, if_pos rfl]
      exact allval_cons (fun _ => hval) (allval_of_no_key hnd.1)
    · simp only [aupdate, if_neg hak]
      exact allval_cons (fun hk => absurd hk hak) (ih hnd.2)

theorem KLruCache.lru_step_nodupk (op : KLruCache.Op) {s : KLruCache.State}
    (h : NodupK s.entries) : NodupK (KLruCache.step op s).entries := by
  cases op with
  | put k v =>
    show NodupK (KLruCache.put k v s).entries
    unfold KLruCache.put
    by_cases hc : s.capacity = 0
    · rw [if_pos hc]
      exact h
    · rw [if_neg hc]
      cases hk : alookup k s.entries with
      | some w => exact nodupk_aerase_append_single _ h
      | none =>
        unfold KLruCache.addNewNode KLruCache.evictLeastRecent
        have hnk : k ∉ akeys s.entries := alookup_eq_none_iff_not_mem_keys.mp hk
        by_cases hlen : s.entries.length ≥ s.capacity <;>
          simp only [hlen, ite_true, ite_false]
        · exact nodupk_append_single_of_not_mem _
            (fun hm => hnk (akeys_subset_of_sublist (List.tail_sublist _) _ hm))
            (nodupk_of_sublist (List.tail_sublist _) h)
        · exact nodupk_append_single_of_not_mem _ hnk h
  | get k =>
    show NodupK (KLruCache.get k s).2.entries
    unfold KLruCache.get
    cases hk : alookup k s.entries with
    | some w => exact nodupk_aerase_append_single _ h
    | none => exact h
  | remove k =>
    exact nodupk_aerase k h

theorem KLruCache.lru_run_nodupk (ops : List KLruCache.Op) {s : KLruCache.State}
    (h : NodupK s.entries) : NodupK (KLruCache.run ops s).entries := by
  induction ops generalizing s with
  | nil => exact h
  | cons op t ih => exact ih (KLruCache.lru_step_nodupk op h)

theorem KLruCache.lru_step_allval {k vn : Nat} (op : KLruCache.Op)
    (hop : ∀ v, op ≠ KLruCache.Op.put k v) {s : KLruCache.State}
    (h : AllVal id k vn s.entries) : AllVal id k vn (KLruCache.step op s).entries := by
  cases op with
  | put j v =>
    have hjk : j ≠ k := by
      intro hj
      exact hop v (by rw [hj])
    show AllVal id k vn (KLruCache.put j v s).entries
    unfold KLruCache.put
    by_cases hc : s.capacity = 0
    · rw [if_pos hc]
      exact h
    · rw [if_neg hc]
      cases hk : alookup j s.entries with
      | some w => exact allval_append (allval_aerase j h) (allval_single_ne _ _ hjk)
      | none =>
        unfold KLruCache.addNewNode KLruCache.evictLeastRecent
        by_cases hlen : s.entries.length ≥ s.capacity <;>
          simp only [hlen, ite_true, ite_false]
        · exact allval_append (allval_tail h) (allval_single_ne _ _ hjk)
        · exact allval_append h (allval_single_ne _ _ hjk)
  | get j =>
    show AllVal id k vn (KLruCache.get j s).2.entries
    unfold KLruCache.get
    cases hk : alookup j s.entries with
    | some w =>
      refine allval_append (allval_aerase j h) ?_
      by_cases hjk : j = k
      · subst hjk
        exact allval_single_self (allval_lookup h hk)
      · exact allval_single_ne _ _ hjk
    | none => exact h
  | remove j =>
    exact allval_aerase j h

theorem KLruCache.lru_run_allval {k vn : Nat} (ops : List KLruCache.Op)
    (hop : ∀ v, KLruCache.Op.put k v ∉ ops) {s : KLruCache.State}
    (h : AllVal id k vn s.entries) :
    AllVal id k vn (KLruCache.run ops s).entries := by
  induction ops generalizing s with
  | nil => exact h
  | cons op t ih =>
    refine ih (fun v hv => hop v (List.mem_cons_of_mem _ hv)) ?_
    exact KLruCache.lru_step_allval op
      (fun v hv => hop v (hv ▸ List.mem_cons_self _ _)) h

theorem KLruCache.lru_put_allval {k vn : Nat} {s : KLruCache.State}
    (hc : ¬ s.capacity = 0) (hnd : NodupK s.entries) :
    AllVal id k vn (KLruCache.put k vn s).entries := by
  unfold KLruCache.put
  rw [if_neg hc]
  cases hk : alookup k s.entries with
  | some w =>
    exact allval_append (allval_of_no_key (not_mem_keys_aerase_self hnd))
      (allval_single_self rfl)
  | none =>
    unfold KLruCache.addNewNode KLruCache.evictLeastRecent
    have hnk : k ∉ akeys s.entries := alookup_eq_none_iff_not_mem_keys.mp hk
    by_cases hlen : s.entries.length ≥ s.capacity <;>
      simp only [hlen, ite_true, ite_false]
    · exact allval_append
        (allval_of_no_key
          (fun hm => hnk (akeys_subset_of_sublist (List.tail_sublist _) _ hm)))
        (allval_single_self rfl)
    · exact allval_append (allval_of_no_key hnk) (allval_single_self rfl)

theorem KLfuCache.handleOver_akeys (s : KLfuCache.State) :
    akeys (KLfuCache.handleOverMaxAverageNum s).nodeMap = akeys s.nodeMap := by
  unfold KLfuCache.handleOverMaxAverageNum
  by_cases hne : s.nodeMap = []
  · rw [if_pos hne]
  · rw [if_neg hne]
    show akeys (s.nodeMap.map _) = _
    exact akeys_map_payload _ s.nodeMap

theorem KLfuCache.handleOver_allval {k vn : Nat} {s : KLfuCache.State}
    (h : AllVal KLfuCache.LfuNode.value k vn s.nodeMap) :
    AllVal KLfuCache.LfuNode.value k vn (KLfuCache.handleOverMaxAverageNum s).nodeMap := by
  unfold KLfuCache.handleOverMaxAverageNum
  by_cases hne : s.nodeMap = []
  · rw [if_pos hne]
    exact h
  · rw [if_neg hne]
    exact allval_map (fun p => ⟨rfl, rfl⟩) h

theorem KLfuCache.addFreqNum_akeys (s : KLfuCache.State) :
    akeys (KLfuCache.addFreqNum s).nodeMap = akeys s.nodeMap := by
  unfold KLfuCache.addFreqNum
  dsimp only
  split <;> split
  · exact KLfuCache.handleOver_akeys _
  · rfl
  · exact KLfuCache.handleOver_akeys _
  · rfl

theorem KLfuCache.addFreqNum_allval {k vn : Nat} {s : KLfuCache.State}
    (h : AllVal KLfuCache.LfuNode.value k vn s.nodeMap) :
    AllVal KLfuCache.LfuNode.value k vn (KLfuCache.addFreqNum s).nodeMap := by
  unfold KLfuCache.addFreqNum
  dsimp only
  split <;> split
  · exact KLfuCache.handleOver_allval h
  · exact h
  · exact KLfuCache.handleOver_allval h
  · exact h

theorem KLfuCache.addFreqNum_nodupk {s : KLfuCache.State}
    (h : NodupK s.nodeMap) : NodupK (KLfuCache.addFreqNum s).nodeMap := by
  unfold NodupK at *
  rw [KLfuCache.addFreqNum_akeys]
  exact h

theorem KLfuCache.kickOut_keys {s : KLfuCache.State} :
    ∀ a ∈ akeys (KLfuCache.kickOut s).nodeMap, a ∈ akeys s.nodeMap := by
  unfold KLfuCache.kickOut
  split
  · exact fun a ha => akeys_subset_of_sublist (aerase_sublist 0 _) a ha
  · exact fun a ha => akeys_subset_of_sublist (aerase_sublist _ _) a ha

theorem KLfuCache.kickOut_allval {k vn : Nat} {s : KLfuCache.State}
    (h : AllVal KLfuCache.LfuNode.value k vn s.nodeMap) :
    AllVal KLfuCache.LfuNode.value k vn (KLfuCache.kickOut s).nodeMap := by
  unfold KLfuCache.kickOut
  split
  · exact allval_aerase 0 h
  · exact allval_aerase _ h

theorem KLfuCache.kickOut_nodupk {s : KLfuCache.State}
    (h : NodupK s.nodeMap) : NodupK (KLfuCache.kickOut s).nodeMap := by
  unfold KLfuCache.kickOut
  split
  · exact nodupk_aerase 0 h
  · exact nodupk_aerase _ h

theorem KLfuCache.getInternal_allval {k vn j : Nat} {n : KLfuCache.LfuNode}
    {s : KLfuCache.State} (h : AllVal KLfuCache.LfuNode.value k vn s.nodeMap)
    (hj : j = k → n.value = vn) :
    AllVal KLfuCache.LfuNode.value k vn (KLfuCache.getInternal j n s).nodeMap := by
  unfold KLfuCache.getInternal
  dsimp only
  refine KLfuCache.addFreqNum_allval ?_
  show AllVal _ k vn
    (if _ then { s with
        nodeMap := aupdate j _ s.nodeMap,
        freqToFreqList := _, minFreq := _ }
     else { s with nodeMap := aupdate j _ s.nodeMap, freqToFreqList := _ }).nodeMap
  split <;> exact allval_aupdate_const h hj

theorem KLfuCache.getInternal_nodupk {j : Nat} {n : KLfuCache.LfuNode}
    {s : KLfuCache.State} (h : NodupK s.nodeMap) :
    NodupK (KLfuCache.getInternal j n s).nodeMap := by
  unfold KLfuCache.getInternal
  dsimp only
  refine KLfuCache.addFreqNum_nodupk ?_
  split <;> exact nodupk_aupdate _ _ h

theorem KLfuCache.putInternal_allval_ne {k vn j v : Nat} (hjk : j ≠ k)
    {s : KLfuCache.State} (h : AllVal KLfuCache.LfuNode.value k vn s.nodeMap) :
    AllVal KLfuCache.LfuNode.value k vn (KLfuCache.putInternal j v s).nodeMap := by
  unfold KLfuCache.putInternal
  dsimp only
  refine KLfuCache.addFreqNum_allval ?_
  by_cases hlen : s.nodeMap.length = s.capacity <;>
    simp only [hlen, ite_true, ite_false]
  · exact allval_append (KLfuCache.kickOut_allval h) (allval_single_ne _ _ hjk)
  · exact allval_append h (allval_single_ne _ _ hjk)

theorem KLfuCache.putInternal_allval_self {k vn : Nat} {s : KLfuCache.State}
    (hk : alookup k s.nodeMap = none) :
    AllVal KLfuCache.LfuNode.value k vn (KLfuCache.putInternal k vn s).nodeMap := by
  unfold KLfuCache.putInternal
  dsimp only
  refine KLfuCache.addFreqNum_allval ?_
  have hnk : k ∉ akeys s.nodeMap := alookup_eq_none_iff_not_mem_keys.mp hk
  by_cases hlen : s.nodeMap.length = s.capacity <;>
    simp only [hlen, ite_true, ite_false]
  · exact allval_append
      (allval_of_no_key (fun hm => hnk (KLfuCache.kickOut_keys _ hm)))
      (allval_single_self rfl)
  · exact allval_append (allval_of_no_key hnk) (allval_single_self rfl)

theorem KLfuCache.putInternal_nodupk {j v : Nat} {s : KLfuCache.State}
    (hk : alookup j s.nodeMap = none) (h : NodupK s.nodeMap) :
    NodupK (KLfuCache.putInternal j v s).nodeMap := by
  unfold KLfuCache.putInternal
  dsimp only
  refine KLfuCache.addFreqNum_nodupk ?_
  have hnk : j ∉ akeys s.nodeMap := alookup_eq_none_iff_not_mem_keys.mp hk
  by_cases hlen : s.nodeMap.length = s.capacity <;>
    simp only [hlen, ite_true, ite_false]
  · exact nodupk_append_single_of_not_mem _
      (fun hm => hnk (KLfuCache.kickOut_keys _ hm)) (KLfuCache.kickOut_nodupk h)
  · exact nodupk_append_single_of_not_mem _ hnk h

theorem KLfuCache.lfu_step_nodupk (op : KLfuCache.Op) {s : KLfuCache.State}
    (h : NodupK s.nodeMap) : NodupK (KLfuCache.step op s).nodeMap := by
  cases op with
  | put j v =>
    show NodupK (KLfuCache.put j v s).nodeMap
    unfold KLfuCache.put
    by_cases hc : s.capacity = 0
    · rw [if_pos hc]
      exact h
    · rw [if_neg hc]
      cases hk : alookup j s.nodeMap with
      | some n => exact KLfuCache.getInternal_nodupk (nodupk_aupdate _ _ h)
      | none => exact KLfuCache.putInternal_nodupk hk h
  | get j =>
    show NodupK (KLfuCache.get j s).2.nodeMap
    unfold KLfuCache.get
    cases hk : alookup j s.nodeMap with
    | some n => exact KLfuCache.getInternal_nodupk h
    | none => exact h
  | purge =>
    exact List.nodup_nil

theorem KLfuCache.lfu_step_allval {k vn : Nat} (op : KLfuCache.Op)
    (hop : ∀ v, op ≠ KLfuCache.Op.put k v) {s : KLfuCache.State}
    (h : AllVal KLfuCache.LfuNode.value k vn s.nodeMap) :
    AllVal KLfuCache.LfuNode.value k vn (KLfuCache.step op s).nodeMap := by
  cases op with
  | put j v =>
    have hjk : j ≠ k := by
      intro hj
      exact hop v (by rw [hj])
    show AllVal _ k vn (KLfuCache.put j v s).nodeMap
    unfold KLfuCache.put
    by_cases hc : s.capacity = 0
    · rw [if_pos hc]
      exact h
    · rw [if_neg hc]
      cases hk : alookup j s.nodeMap with
      | some n =>
        exact KLfuCache.getInternal_allval
          (allval_aupdate_const h (fun hj => absurd hj hjk))
          (fun hj => absurd hj hjk)
      | none => exact KLfuCache.putInternal_allval_ne hjk h
  | get j =>
    show AllVal _ k vn (KLfuCache.get j s).2.nodeMap
    unfold KLfuCache.get
    cases hk : alookup j s.nodeMap with
    | some n =>
      exact KLfuCache.getInternal_allval h (fun hj => allval_lookup h (hj ▸ hk))
    | none => exact h
  | purge =>
    exact allval_nil _ k vn

theorem KLfuCache.lfu_run_nodupk (ops : List KLfuCache.Op) {s : KLfuCache.State}
    (h : NodupK s.nodeMap) : NodupK (KLfuCache.run ops s).nodeMap := by
  induction ops generalizing s with
  | nil => exact h
  | cons op t ih => exact ih (KLfuCache.lfu_step_nodupk op h)

theorem KLfuCache.lfu_run_allval {k vn : Nat} (ops : List KLfuCache.Op)
    (hop : ∀ v, KLfuCache.Op.put k v ∉ ops) {s : KLfuCache.State}
    (h : AllVal KLfuCache.LfuNode.value k vn s.nodeMap) :
    AllVal KLfuCache.LfuNode.value k vn (KLfuCache.run ops s).nodeMap := by
  induction ops generalizing s with
  | nil => exact h
  | cons op t ih =>
    refine ih (fun v hv => hop v (List.mem_cons_of_mem _ hv)) ?_
    exact KLfuCache.lfu_step_allval op
      (fun v hv => hop v (hv ▸ List.mem_cons_self _ _)) h

theorem KLfuCache.lfu_put_allval {k vn : Nat} {s : KLfuCache.State}
    (hnd : NodupK s.nodeMap) :
    AllVal KLfuCache.LfuNode.value k vn (KLfuCache.put k vn s).nodeMap ∨
      KLfuCache.put k vn s = s := by
  unfold KLfuCache.put
  by_cases hc : s.capacity = 0
  · rw [if_pos hc]
    exact Or.inr rfl
  · rw [if_neg hc]
    left
    cases hk : alookup k s.nodeMap with
    | some n =>
      exact KLfuCache.getInternal_allval
        (allval_aupdate_self_of_nodup hnd rfl) (fun _ => rfl)
    | none => exact KLfuCache.putInternal_allval_self hk

theorem ArcLruPart.arcLru_removeOldestGhost_main (s : ArcLruPart.State) :
    (ArcLruPart.removeOldestGhost s).main = s.main := by
  unfold ArcLruPart.removeOldestGhost
  split <;> rfl

theorem ArcLruPart.evictLeastRecent_main (s : ArcLruPart.State) :
    (ArcLruPart.evictLeastRecent s).main = s.main ∨
      (ArcLruPart.evictLeastRecent s).main = s.main.dropLast := by
  unfold ArcLruPart.evictLeastRecent
  cases hl : s.main.getLast? with
  | none => exact Or.inl rfl
  | some p =>
    obtain ⟨k0, n0⟩ := p
    right
    dsimp only
    split
    · rw [ArcLruPart.arcLru_removeOldestGhost_main]
    · rfl

theorem ArcLruPart.evictLeastRecent_allval {k vn : Nat} {s : ArcLruPart.State}
    (h : AllVal ArcCache.ArcNode.value k vn s.main) :
    AllVal ArcCache.ArcNode.value k vn (ArcLruPart.evictLeastRecent s).main := by
  rcases ArcLruPart.evictLeastRecent_main s with hm | hm <;> rw [hm]
  · exact h
  · exact allval_dropLast h

theorem ArcLruPart.evictLeastRecent_nodupk {s : ArcLruPart.State}
    (h : NodupK s.main) : NodupK (ArcLruPart.evictLeastRecent s).main := by
  rcases ArcLruPart.evictLeastRecent_main s with hm | hm <;> rw [hm]
  · exact h
  · exact nodupk_of_sublist (List.dropLast_sublist _) h

theorem ArcLruPart.evictLeastRecent_not_mem {k : Nat} {s : ArcLruPart.State}
    (h : k ∉ akeys s.main) : k ∉ akeys (ArcLruPart.evictLeastRecent s).main := by
  rcases ArcLruPart.evictLeastRecent_main s with hm | hm <;> rw [hm]
  · exact h
  · exact fun hk => h (akeys_subset_of_sublist (List.dropLast_sublist _) k hk)

theorem ArcLruPart.arcLru_put_main_allval {k vn : Nat} (j v : Nat) {s : ArcLruPart.State}
    (h : AllVal ArcCache.ArcNode.value k vn s.main) (hj : j = k → v = vn) :
    AllVal ArcCache.ArcNode.value k vn (ArcLruPart.put j v s).2.main := by
  unfold ArcLruPart.put
  by_cases hc : s.capacity = 0
  · rw [if_pos hc]
    exact h
  · rw [if_neg hc]
    cases hk : alookup j s.main with
    | some n => exact allval_cons (fun he => hj he) (allval_aerase j h)
    | none =>
      show AllVal _ k vn (ArcLruPart.addNewNode j v s).main
      rw [ArcLruPart.arcLru_addNewNode_main]
      refine allval_cons (fun he => hj he) ?_
      by_cases hev : s.main.length ≥ s.capacity
      · rw [if_pos hev]
        exact ArcLruPart.evictLeastRecent_allval h
      · rw [if_neg hev]
        exact h

theorem ArcLruPart.arcLru_put_main_nodupk (j v : Nat) {s : ArcLruPart.State}
    (h : NodupK s.main) : NodupK (ArcLruPart.put j v s).2.main := by
  unfold ArcLruPart.put
  by_cases hc : s.capacity = 0
  · rw [if_pos hc]
    exact h
  · rw [if_neg hc]
    cases hk : alookup j s.main with
    | some n => exact nodupk_cons_aerase _ h
    | none =>
      show NodupK (ArcLruPart.addNewNode j v s).main
      rw [ArcLruPart.arcLru_addNewNode_main]
      have hnk : j ∉ akeys s.main := alookup_eq_none_iff_not_mem_keys.mp hk
      by_cases hev : s.main.length ≥ s.capacity
      · rw [if_pos hev]
        exact nodupk_cons_of_not_mem _ (ArcLruPart.evictLeastRecent_not_mem hnk)
          (ArcLruPart.evictLeastRecent_nodupk h)
      · rw [if_neg hev]
        exact nodupk_cons_of_not_mem _ hnk h

theorem ArcLruPart.arcLru_get_main_allval {k vn : Nat} (j : Nat) {s : ArcLruPart.State}
    (h : AllVal ArcCache.ArcNode.value k vn s.main) :
    AllVal ArcCache.ArcNode.value k vn (ArcLruPart.get j s).2.main := by
  unfold ArcLruPart.get
  cases hk : alookup j s.main with
  | some n =>
    refine allval_cons (fun he => ?_) (allval_aerase j h)
    show n.value = vn
    exact allval_lookup h (he ▸ hk)
  | none => exact h

theorem ArcLruPart.arcLru_get_main_nodupk (j : Nat) {s : ArcLruPart.State}
    (h : NodupK s.main) : NodupK (ArcLruPart.get j s).2.main := by
  unfold ArcLruPart.get
  cases hk : alookup j s.main with
  | some n => exact nodupk_cons_aerase _ h
  | none => exact h

theorem ArcLruPart.arcLru_checkGhost_main (j : Nat) (s : ArcLruPart.State) :
    (ArcLruPart.checkGhost j s).2.main = s.main := by
  unfold ArcLruPart.checkGhost
  split <;> rfl

theorem ArcLruPart.arcLru_decreaseCapacity_main (s : ArcLruPart.State) :
    (ArcLruPart.decreaseCapacity s).2.main = s.main ∨
      (ArcLruPart.decreaseCapacity s).2.main = (ArcLruPart.evictLeastRecent s).main := by
  unfold ArcLruPart.decreaseCapacity
  split
  · exact Or.inl rfl
  · dsimp only
    split
    · exact Or.inr rfl
    · exact Or.inl rfl

theorem ArcLfuPart.arcLfu_removeOldestGhost_main (s : ArcLfuPart.State) :
    (ArcLfuPart.removeOldestGhost s).main = s.main := by
  unfold ArcLfuPart.removeOldestGhost
  split <;> rfl

theorem ArcLfuPart.evictLeastFrequent_main (s : ArcLfuPart.State) :
    (ArcLfuPart.evictLeastFrequent s).main = s.main ∨
      ∃ k0, (ArcLfuPart.evictLeastFrequent s).main = aerase k0 s.main := by
  unfold ArcLfuPart.evictLeastFrequent
  split
  · exact Or.inl rfl
  · split
    · exact Or.inl rfl
    · rename_i k0 rest heq
      refine Or.inr ⟨k0, ?_⟩
      dsimp only
      repeat' split
      all_goals first
        | rfl
        | (rw [ArcLfuPart.arcLfu_removeOldestGhost_main])

theorem ArcLfuPart.evictLeastFrequent_allval {k vn : Nat} {s : ArcLfuPart.State}
    (h : AllVal ArcCache.ArcNode.value k vn s.main) :
    AllVal ArcCache.ArcNode.value k vn (ArcLfuPart.evictLeastFrequent s).main := by
  rcases ArcLfuPart.evictLeastFrequent_main s with hm | ⟨k0, hm⟩ <;> rw [hm]
  · exact h
  · exact allval_aerase k0 h

theorem ArcLfuPart.evictLeastFrequent_nodupk {s : ArcLfuPart.State}
    (h : NodupK s.main) : NodupK (ArcLfuPart.evictLeastFrequent s).main := by
  rcases ArcLfuPart.evictLeastFrequent_main s with hm | ⟨k0, hm⟩ <;> rw [hm]
  · exact h
  · exact nodupk_aerase k0 h

theorem ArcLfuPart.evictLeastFrequent_not_mem {k : Nat} {s : ArcLfuPart.State}
    (h : k ∉ akeys s.main) : k ∉ akeys (ArcLfuPart.evictLeastFrequent s).main := by
  rcases ArcLfuPart.evictLeastFrequent_main s with hm | ⟨k0, hm⟩ <;> rw [hm]
  · exact h
  · exact fun hk => h (akeys_subset_of_sublist (aerase_sublist k0 s.main) k hk)

theorem ArcLfuPart.arcLfu_put_main_allval {k vn : Nat} (j v : Nat) {s : ArcLfuPart.State}
    (h : AllVal ArcCache.ArcNode.value k vn s.main) (hj : j = k → v = vn) :
    AllVal ArcCache.ArcNode.value k vn (ArcLfuPart.put j v s).2.main := by
  unfold ArcLfuPart.put
  by_cases hc : s.capacity = 0
  · rw [if_pos hc]
    exact h
  · rw [if_neg hc]
    cases hk : alookup j s.main with
    | some n =>
      dsimp only
      rw [(ArcLfuPart.updateNodeFrequency_frame j _ _).2.2]
      refine allval_aupdate_const (allval_aupdate_const h ?_) ?_
      · intro he
        show v = vn
        exact hj he
      · intro he
        show v = vn
        exact hj he
    | none =>
      show AllVal _ k vn (ArcLfuPart.addNewNode j v s).main
      rw [ArcLfuPart.arcLfu_addNewNode_main]
      refine allval_cons (fun he => hj he) ?_
      by_cases hev : s.main.length ≥ s.capacity
      · rw [if_pos hev]
        exact ArcLfuPart.evictLeastFrequent_allval h
      · rw [if_neg hev]
        exact h

theorem ArcLfuPart.arcLfu_put_main_nodupk (j v : Nat) {s : ArcLfuPart.State}
    (h : NodupK s.main) : NodupK (ArcLfuPart.put j v s).2.main := by
  unfold ArcLfuPart.put
  by_cases hc : s.capacity = 0
  · rw [if_pos hc]
    exact h
  · rw [if_neg hc]
    cases hk : alookup j s.main with
    | some n =>
      dsimp only
      rw [(ArcLfuPart.updateNodeFrequency_frame j _ _).2.2]
      exact nodupk_aupdate _ _ (nodupk_aupdate _ _ h)
    | none =>
      show NodupK (ArcLfuPart.addNewNode j v s).main
      rw [ArcLfuPart.arcLfu_addNewNode_main]
      have hnk : j ∉ akeys s.main := alookup_eq_none_iff_not_mem_keys.mp hk
      by_cases hev : s.main.length ≥ s.capacity
      · rw [if_pos hev]
        exact nodupk_cons_of_not_mem _ (ArcLfuPart.evictLeastFrequent_not_mem hnk)
          (ArcLfuPart.evictLeastFrequent_nodupk h)
      · rw [if_neg hev]
        exact nodupk_cons_of_not_mem _ hnk h

theorem ArcLfuPart.arcLfu_get_main_allval {k vn : Nat} (j : Nat) {s : ArcLfuPart.State}
    (h : AllVal ArcCache.ArcNode.value k vn s.main) :
    AllVal ArcCache.ArcNode.value k vn (ArcLfuPart.get j s).2.main := by
  unfold ArcLfuPart.get
  cases hk : alookup j s.main with
  | some n =>
    rw [(ArcLfuPart.updateNodeFrequency_frame j _ _).2.2]
    refine allval_aupdate_const h (fun he => ?_)
    show n.value = vn
    exact allval_lookup h (he ▸ hk)
  | none => exact h

theorem ArcLfuPart.arcLfu_get_main_nodupk (j : Nat) {s : ArcLfuPart.State}
    (h : NodupK s.main) : NodupK (ArcLfuPart.get j s).2.main := by
  unfold ArcLfuPart.get
  cases hk : alookup j s.main with
  | some n =>
    rw [(ArcLfuPart.updateNodeFrequency_frame j _ _).2.2]
    exact nodupk_aupdate _ _ h
  | none => exact h

theorem ArcLfuPart.arcLfu_checkGhost_main (j : Nat) (s : ArcLfuPart.State) :
    (ArcLfuPart.checkGhost j s).2.main = s.main := by
  unfold ArcLfuPart.checkGhost
  split <;> rfl

theorem ArcLfuPart.arcLfu_decreaseCapacity_main (s : ArcLfuPart.State) :
    (ArcLfuPart.decreaseCapacity s).2.main = s.main ∨
      (ArcLfuPart.decreaseCapacity s).2.main = (ArcLfuPart.evictLeastFrequent s).main := by
  unfold ArcLfuPart.decreaseCapacity
  split
  · exact Or.inl rfl
  · dsimp only
    split
    · exact Or.inr rfl
    · exact Or.inl rfl

theorem ArcLruPart.arcLru_decreaseCapacity_main_allval {k vn : Nat} {s : ArcLruPart.State}
    (h : AllVal ArcCache.ArcNode.value k vn s.main) :
    AllVal ArcCache.ArcNode.value k vn (ArcLruPart.decreaseCapacity s).2.main := by
  rcases ArcLruPart.arcLru_decreaseCapacity_main s with hm | hm <;> rw [hm]
  · exact h
  · exact ArcLruPart.evictLeastRecent_allval h

theorem ArcLruPart.arcLru_decreaseCapacity_main_nodupk {s : ArcLruPart.State}
    (h : NodupK s.main) : NodupK (ArcLruPart.decreaseCapacity s).2.main := by
  rcases ArcLruPart.arcLru_decreaseCapacity_main s with hm | hm <;> rw [hm]
  · exact h
  · exact ArcLruPart.evictLeastRecent_nodupk h

theorem ArcLfuPart.arcLfu_decreaseCapacity_main_allval {k vn : Nat} {s : ArcLfuPart.State}
    (h : AllVal ArcCache.ArcNode.value k vn s.main) :
    AllVal ArcCache.ArcNode.value k vn (ArcLfuPart.decreaseCapacity s).2.main := by
  rcases ArcLfuPart.arcLfu_decreaseCapacity_main s with hm | hm <;> rw [hm]
  · exact h
  · exact ArcLfuPart.evictLeastFrequent_allval h

theorem ArcLfuPart.arcLfu_decreaseCapacity_main_nodupk {s : ArcLfuPart.State}
    (h : NodupK s.main) : NodupK (ArcLfuPart.decreaseCapacity s).2.main := by
  rcases ArcLfuPart.arcLfu_decreaseCapacity_main s with hm | hm <;> rw [hm]
  · exact h
  · exact ArcLfuPart.evictLeastFrequent_nodupk h

theorem KArcCache.checkGhostCaches_inv {k vn j : Nat} {s : KArcCache.State}
    (h : KArcCache.MainInv k vn s) :
    KArcCache.MainInv k vn (KArcCache.checkGhostCaches j s).2 := by
  obtain ⟨h1, h2, h3, h4⟩ := h
  unfold KArcCache.checkGhostCaches
  rcases hg1 : ArcLruPart.checkGhost j s.lru with ⟨b1, lru1⟩
  have hlru1 : lru1.main = s.lru.main := by
    have := ArcLruPart.arcLru_checkGhost_main j s.lru
    rw [hg1] at this
    exact this
  cases b1 with
  | true =>
    rcases hd : ArcLfuPart.decreaseCapacity s.lfu with ⟨b2, lfu1⟩
    have hlfu1a : AllVal ArcCache.ArcNode.value k vn lfu1.main := by
      have := @ArcLfuPart.arcLfu_decreaseCapacity_main_allval k vn s.lfu h2
      rw [hd] at this
      exact this
    have hlfu1n : NodupK lfu1.main := by
      have := @ArcLfuPart.arcLfu_decreaseCapacity_main_nodupk s.lfu h4
      rw [hd] at this
      exact this
    cases b2 with
    | true => exact ⟨hlru1 ▸ h1, hlfu1a, hlru1 ▸ h3, hlfu1n⟩
    | false => exact ⟨hlru1 ▸ h1, hlfu1a, hlru1 ▸ h3, hlfu1n⟩
  | false =>
    rcases hg2 : ArcLfuPart.checkGhost j s.lfu with ⟨b2, lfu1⟩
    have hlfu1 : lfu1.main = s.lfu.main := by
      have := ArcLfuPart.arcLfu_checkGhost_main j s.lfu
      rw [hg2] at this
      exact this
    cases b2 with
    | true =>
      rcases hd : ArcLruPart.decreaseCapacity s.lru with ⟨b3, lru2⟩
      have hlru2a : AllVal ArcCache.ArcNode.value k vn lru2.main := by
        have := @ArcLruPart.arcLru_decreaseCapacity_main_allval k vn s.lru h1
        rw [hd] at this
        exact this
      have hlru2n : NodupK lru2.main := by
        have := @ArcLruPart.arcLru_decreaseCapacity_main_nodupk s.lru h3
        rw [hd] at this
        exact this
      cases b3 with
      | true => exact ⟨hlru2a, hlfu1 ▸ h2, hlru2n, hlfu1 ▸ h4⟩
      | false => exact ⟨hlru2a, hlfu1 ▸ h2, hlru2n, hlfu1 ▸ h4⟩
    | false => exact ⟨h1, h2, h3, h4⟩

theorem ArcLruPart.get_fst_some {j v : Nat} {t : Bool} {s : ArcLruPart.State}
    (h : (ArcLruPart.get j s).1 = some (v, t)) :
    ∃ n, alookup j s.main = some n ∧ v = n.value := by
  unfold ArcLruPart.get at h
  cases hk : alookup j s.main with
  | some n =>
    rw [hk] at h
    refine ⟨n, rfl, ?_⟩
    have : (v, t) = ((⟨n.value, n.accessCount + 1⟩ : ArcCache.ArcNode).value,
        decide ((⟨n.value, n.accessCount + 1⟩ : ArcCache.ArcNode).accessCount
          ≥ s.transformThreshold)) := by
      have h' := h
      simp only [Option.some.injEq] at h'
      exact h'.symm
    exact congrArg Prod.fst this
  | none =>
    rw [hk] at h
    exact absurd h (by simp)

theorem ArcLruPart.arcLru_get_fst_of_mem {j : Nat} {n : ArcCache.ArcNode}
    {s : ArcLruPart.State} (hk : alookup j s.main = some n) :
    (ArcLruPart.get j s).1 =
      some (n.value, decide (n.accessCount + 1 ≥ s.transformThreshold)) := by
  unfold ArcLruPart.get
  rw [hk]

theorem ArcLruPart.get_none_of_not_mem {j : Nat} {s : ArcLruPart.State}
    (hk : alookup j s.main = none) : ArcLruPart.get j s = (none, s) := by
  unfold ArcLruPart.get
  rw [hk]

theorem ArcLfuPart.arcLfu_get_fst_of_mem {j : Nat} {n : ArcCache.ArcNode}
    {s : ArcLfuPart.State} (hk : alookup j s.main = some n) :
    (ArcLfuPart.get j s).1 = some n.value := by
  unfold ArcLfuPart.get
  rw [hk]

theorem KArcCache.step_inv {k vn : Nat} (op : KArcCache.Op)
    (hop : ∀ v, op ≠ KArcCache.Op.put k v) {s : KArcCache.State}
    (h : KArcCache.MainInv k vn s) :
    KArcCache.MainInv k vn (KArcCache.step op s) := by
  cases op with
  | put j v =>
    have hjk : j ≠ k := by
      intro he
      exact hop v (by rw [he])
    show KArcCache.MainInv k vn (KArcCache.put j v s)
    have h1 := @KArcCache.checkGhostCaches_inv k vn j s h
    obtain ⟨ha1, ha2, hn1, hn2⟩ := h1
    unfold KArcCache.put
    dsimp only
    by_cases hin : ArcLfuPart.contain j (KArcCache.checkGhostCaches j s).2.lfu
    · simp only [hin, ite_true]
      exact ⟨ArcLruPart.arcLru_put_main_allval j v ha1 (fun he => absurd he hjk),
        ArcLfuPart.arcLfu_put_main_allval j v ha2 (fun he => absurd he hjk),
        ArcLruPart.arcLru_put_main_nodupk j v hn1, ArcLfuPart.arcLfu_put_main_nodupk j v hn2⟩
    · simp only [hin, ite_false]
      exact ⟨ArcLruPart.arcLru_put_main_allval j v ha1 (fun he => absurd he hjk),
        ha2, ArcLruPart.arcLru_put_main_nodupk j v hn1, hn2⟩
  | get j =>
    show KArcCache.MainInv k vn (KArcCache.get j s).2
    have h1 := @KArcCache.checkGhostCaches_inv k vn j s h
    obtain ⟨ha1, ha2, hn1, hn2⟩ := h1
    unfold KArcCache.get
    dsimp only
    rcases hg : ArcLruPart.get j (KArcCache.checkGhostCaches j s).2.lru with ⟨r, lru2⟩
    have hlru2a : AllVal ArcCache.ArcNode.value k vn lru2.main := by
      have := @ArcLruPart.arcLru_get_main_allval k vn j _ ha1
      rw [hg] at this
      exact this
    have hlru2n : NodupK lru2.main := by
      have := @ArcLruPart.arcLru_get_main_nodupk j _ hn1
      rw [hg] at this
      exact this
    cases r with
    | none =>
      rcases hf : ArcLfuPart.get j (KArcCache.checkGhostCaches j s).2.lfu with ⟨rf, lfu2⟩
      have hlfu2a : AllVal ArcCache.ArcNode.value k vn lfu2.main := by
        have := @ArcLfuPart.arcLfu_get_main_allval k vn j _ ha2
        rw [hf] at this
        exact this
      have hlfu2n : NodupK lfu2.main := by
        have := @ArcLfuPart.arcLfu_get_main_nodupk j _ hn2
        rw [hf] at this
        exact this
      simp only [hf]
      exact ⟨ha1, hlfu2a, hn1, hlfu2n⟩
    | some p =>
      obtain ⟨v, st⟩ := p
      have hfst : (ArcLruPart.get j (KArcCache.checkGhostCaches j s).2.lru).1
          = some (v, st) := by rw [hg]
      obtain ⟨n, hn, hv⟩ := ArcLruPart.get_fst_some hfst
      have hvk : j = k → v = vn := by
        intro he
        rw [hv]
        exact allval_lookup ha1 (he ▸ hn)
      cases st with
      | true =>
        exact ⟨hlru2a, ArcLfuPart.arcLfu_put_main_allval j v ha2 hvk,
          hlru2n, ArcLfuPart.arcLfu_put_main_nodupk j v hn2⟩
      | false => exact ⟨hlru2a, ha2, hlru2n, hn2⟩

theorem KArcCache.run_inv {k vn : Nat} (ops : List KArcCache.Op)
    (hop : ∀ v, KArcCache.Op.put k v ∉ ops) {s : KArcCache.State}
    (h : KArcCache.MainInv k vn s) :
    KArcCache.MainInv k vn (KArcCache.run ops s) := by
  induction ops generalizing s with
  | nil => exact h
  | cons op t ih =>
    refine ih (fun v hv => hop v (List.mem_cons_of_mem _ hv)) ?_
    exact KArcCache.step_inv op (fun v hv => hop v (hv ▸ List.mem_cons_self _ _)) h

theorem KArcCache.checkGhostCaches_nodupk (j : Nat) {s : KArcCache.State}
    (h3 : NodupK s.lru.main) (h4 : NodupK s.lfu.main) :
    NodupK (KArcCache.checkGhostCaches j s).2.lru.main ∧
    NodupK (KArcCache.checkGhostCaches j s).2.lfu.main := by
  unfold KArcCache.checkGhostCaches
  rcases hg1 : ArcLruPart.checkGhost j s.lru with ⟨b1, lru1⟩
  have hlru1 : lru1.main = s.lru.main := by
    have := ArcLruPart.arcLru_checkGhost_main j s.lru
    rw [hg1] at this
    exact this
  cases b1 with
  | true =>
    rcases hd : ArcLfuPart.decreaseCapacity s.lfu with ⟨b2, lfu1⟩
    have hlfu1n : NodupK lfu1.main := by
      have := @ArcLfuPart.arcLfu_decreaseCapacity_main_nodupk s.lfu h4
      rw [hd] at this
      exact this
    cases b2 with
    | true => exact ⟨hlru1 ▸ h3, hlfu1n⟩
    | false => exact ⟨hlru1 ▸ h3, hlfu1n⟩
  | false =>
    rcases hg2 : ArcLfuPart.checkGhost j s.lfu with ⟨b2, lfu1⟩
    have hlfu1 : lfu1.main = s.lfu.main := by
      have := ArcLfuPart.arcLfu_checkGhost_main j s.lfu
      rw [hg2] at this
      exact this
    cases b2 with
    | true =>
      rcases hd : ArcLruPart.decreaseCapacity s.lru with ⟨b3, lru2⟩
      have hlru2n : NodupK lru2.main := by
        have := @ArcLruPart.arcLru_decreaseCapacity_main_nodupk s.lru h3
        rw [hd] at this
        exact this
      cases b3 with
      | true => exact ⟨hlru2n, hlfu1 ▸ h4⟩
      | false => exact ⟨hlru2n, hlfu1 ▸ h4⟩
    | false => exact ⟨h3, h4⟩

theorem KArcCache.arc_step_nodupk (op : KArcCache.Op) {s : KArcCache.State}
    (h3 : NodupK s.lru.main) (h4 : NodupK s.lfu.main) :
    NodupK (KArcCache.step op s).lru.main ∧ NodupK (KArcCache.step op s).lfu.main := by
  cases op with
  | put j v =>
    show NodupK (KArcCache.put j v s).lru.main ∧ NodupK (KArcCache.put j v s).lfu.main
    obtain ⟨hn1, hn2⟩ := KArcCache.checkGhostCaches_nodupk j h3 h4
    unfold KArcCache.put
    dsimp only
    by_cases hin : ArcLfuPart.contain j (KArcCache.checkGhostCaches j s).2.lfu
    · simp only [hin, ite_true]
      exact ⟨ArcLruPart.arcLru_put_main_nodupk j v hn1, ArcLfuPart.arcLfu_put_main_nodupk j v hn2⟩
    · simp only [hin, ite_false]
      exact ⟨ArcLruPart.arcLru_put_main_nodupk j v hn1, hn2⟩
  | get j =>
    show NodupK (KArcCache.get j s).2.lru.main ∧ NodupK (KArcCache.get j s).2.lfu.main
    obtain ⟨hn1, hn2⟩ := KArcCache.checkGhostCaches_nodupk j h3 h4
    unfold KArcCache.get
    dsimp only
    rcases hg : ArcLruPart.get j (KArcCache.checkGhostCaches j s).2.lru with ⟨r, lru2⟩
    have hlru2n : NodupK lru2.main := by
      have := @ArcLruPart.arcLru_get_main_nodupk j _ hn1
      rw [hg] at this
      exact this
    cases r with
    | none =>
      rcases hf : ArcLfuPart.get j (KArcCache.checkGhostCaches j s).2.lfu with ⟨rf, lfu2⟩
      have hlfu2n : NodupK lfu2.main := by
        have := @ArcLfuPart.arcLfu_get_main_nodupk j _ hn2
        rw [hf] at this
        exact this
      simp only [hf]
      exact ⟨hn1, hlfu2n⟩
    | some p =>
      obtain ⟨v, st⟩ := p
      cases st with
      | true => exact ⟨hlru2n, ArcLfuPart.arcLfu_put_main_nodupk j v hn2⟩
      | false => exact ⟨hlru2n, hn2⟩

theorem KArcCache.arc_run_nodupk (ops : List KArcCache.Op) {s : KArcCache.State}
    (h3 : NodupK s.lru.main) (h4 : NodupK s.lfu.main) :
    NodupK (KArcCache.run ops s).lru.main ∧ NodupK (KArcCache.run ops s).lfu.main := by
  induction ops generalizing s with
  | nil => exact ⟨h3, h4⟩
  | cons op t ih =>
    obtain ⟨g3, g4⟩ := KArcCache.arc_step_nodupk op h3 h4
    exact ih g3 g4

theorem ArcLruPart.arcLru_put_estab {k vn : Nat} {s : ArcLruPart.State}
    (hc : ¬ s.capacity = 0) (h : NodupK s.main) :
    AllVal ArcCache.ArcNode.value k vn (ArcLruPart.put k vn s).2.main := by
  unfold ArcLruPart.put
  rw [if_neg hc]
  cases hk : alookup k s.main with
  | some n =>
    exact allval_cons (fun _ => rfl) (allval_of_no_key (not_mem_keys_aerase_self h))
  | none =>
    show AllVal _ k vn (ArcLruPart.addNewNode k vn s).main
    rw [ArcLruPart.arcLru_addNewNode_main]
    have hnk : k ∉ akeys s.main := alookup_eq_none_iff_not_mem_keys.mp hk
    refine allval_cons (fun _ => rfl) ?_
    by_cases hev : s.main.length ≥ s.capacity
    · rw [if_pos hev]
      exact allval_of_no_key (ArcLruPart.evictLeastRecent_not_mem hnk)
    · rw [if_neg hev]
      exact allval_of_no_key hnk

theorem ArcLfuPart.arcLfu_put_estab {k vn : Nat} {s : ArcLfuPart.State}
    (hc : ¬ s.capacity = 0) (h : NodupK s.main) :
    AllVal ArcCache.ArcNode.value k vn (ArcLfuPart.put k vn s).2.main := by
  unfold ArcLfuPart.put
  rw [if_neg hc]
  cases hk : alookup k s.main with
  | some n =>
    dsimp only
    rw [(ArcLfuPart.updateNodeFrequency_frame k _ _).2.2]
    refine allval_aupdate_const (allval_aupdate_self_of_nodup h ?_) (fun _ => rfl)
    rfl
  | none =>
    show AllVal _ k vn (ArcLfuPart.addNewNode k vn s).main
    rw [ArcLfuPart.arcLfu_addNewNode_main]
    have hnk : k ∉ akeys s.main := alookup_eq_none_iff_not_mem_keys.mp hk
    refine allval_cons (fun _ => rfl) ?_
    by_cases hev : s.main.length ≥ s.capacity
    · rw [if_pos hev]
      exact allval_of_no_key (ArcLfuPart.evictLeastFrequent_not_mem hnk)
    · rw [if_neg hev]
      exact allval_of_no_key hnk

theorem KArcCache.arc_put_estab {k vn : Nat} {s : KArcCache.State}
    (h3 : NodupK s.lru.main) (h4 : NodupK s.lfu.main)
    (hc1 : ¬ (KArcCache.checkGhostCaches k s).2.lru.capacity = 0)
    (hc2 : alookup k (KArcCache.checkGhostCaches k s).2.lfu.main ≠ none →
      ¬ (KArcCache.checkGhostCaches k s).2.lfu.capacity = 0) :
    KArcCache.MainInv k vn (KArcCache.put k vn s) := by
  obtain ⟨hn1, hn2⟩ := KArcCache.checkGhostCaches_nodupk k h3 h4
  unfold KArcCache.put
  dsimp only
  by_cases hin : ArcLfuPart.contain k (KArcCache.checkGhostCaches k s).2.lfu
  · simp only [hin, ite_true]
    have hne : alookup k (KArcCache.checkGhostCaches k s).2.lfu.main ≠ none := by
      have := hin
      unfold ArcLfuPart.contain at this
      exact of_decide_eq_true this
    exact ⟨ArcLruPart.arcLru_put_estab hc1 hn1, ArcLfuPart.arcLfu_put_estab (hc2 hne) hn2,
      ArcLruPart.arcLru_put_main_nodupk k vn hn1, ArcLfuPart.arcLfu_put_main_nodupk k vn hn2⟩
  · simp only [hin, ite_false]
    have hno : alookup k (KArcCache.checkGhostCaches k s).2.lfu.main = none := by
      by_contra hcon
      exact hin (by unfold ArcLfuPart.contain; exact decide_eq_true hcon)
    exact ⟨ArcLruPart.arcLru_put_estab hc1 hn1,
      allval_of_no_key (alookup_eq_none_iff_not_mem_keys.mp hno),
      ArcLruPart.arcLru_put_main_nodupk k vn hn1, hn2⟩

theorem KArcCache.get_hit {k vn : Nat} {s : KArcCache.State}
    (hg1 : alookup k s.lru.ghost = none) (hg2 : alookup k s.lfu.ghost = none)
    (hinv : KArcCache.MainInv k vn s)
    (hm : alookup k s.lru.main ≠ none ∨ alookup k s.lfu.main ≠ none) :
    (KArcCache.get k s).1 = some vn := by
  obtain ⟨ha1, ha2, _, _⟩ := hinv
  unfold KArcCache.get
  rw [KArcCache.checkGhostCaches_none hg1 hg2]
  dsimp only
  cases hk : alookup k s.lru.main with
  | some n =>
    rcases hg : ArcLruPart.get k s.lru with ⟨r, lru2⟩
    have hfst : (ArcLruPart.get k s.lru).1
        = some (n.value, decide (n.accessCount + 1 ≥ s.lru.transformThreshold)) :=
      ArcLruPart.arcLru_get_fst_of_mem hk
    rw [hg] at hfst
    dsimp only at hfst
    subst hfst
    have hv : n.value = vn := allval_lookup ha1 hk
    cases hd : decide (n.accessCount + 1 ≥ s.lru.transformThreshold) with
    | true =>
      simp only [hd, ite_true]
      exact congrArg some hv
    | false =>
      simp only [hd, ite_false]
      exact congrArg some hv
  | none =>
    rcases hm with hm | hm
    · exact absurd hk hm
    · cases hk2 : alookup k s.lfu.main with
      | some n =>
        rw [ArcLruPart.get_none_of_not_mem hk]
        dsimp only
        rcases hf : ArcLfuPart.get k s.lfu with ⟨rf, lfu2⟩
        have hfst : (ArcLfuPart.get k s.lfu).1 = some n.value :=
          ArcLfuPart.arcLfu_get_fst_of_mem hk2
        rw [hf] at hfst
        dsimp only at hfst
        subst hfst
        simp only [hf]
        exact congrArg some (allval_lookup ha2 hk2)
      | none => exact absurd hk2 hm

theorem KLruKCache.consec_base {C hc kk k : Nat} (hC : ¬ C = 0) (hhc : ¬ hc = 0)
    (v : Nat) :
    KLruKCache.put k v (KLruKCache.init C hc kk) =
      KLruKCache.consecState C hc kk k 1 v := by
  unfold KLruKCache.consecState
  by_cases h1 : 1 < kk
  · rw [if_pos h1]
    have h3 : ¬ (1 ≥ kk) := by omega
    simp [KLruKCache.put, KLruKCache.init, KLruKCache.aset, KLruCache.get,
      KLruCache.getValue, KLruCache.put, KLruCache.addNewNode,
      KLruCache.evictLeastRecent, KLruCache.remove, KLruCache.init,
      alookup, aerase, aupdate, hC, hhc, h3, Nat.le_zero]
  · rw [if_neg h1]
    have h3 : 1 ≥ kk := by omega
    simp [KLruKCache.put, KLruKCache.init, KLruKCache.aset, KLruCache.get,
      KLruCache.getValue, KLruCache.put, KLruCache.addNewNode,
      KLruCache.evictLeastRecent, KLruCache.remove, KLruCache.init,
      alookup, aerase, aupdate, hC, hhc, h3, Nat.le_zero]

theorem KLruKCache.consec_put {C hc kk k : Nat} (hC : ¬ C = 0) (hhc : ¬ hc = 0)
    {i : Nat} (v w : Nat) :
    KLruKCache.put k w (KLruKCache.consecState C hc kk k i v) =
      KLruKCache.consecState C hc kk k (i + 1) w := by
  unfold KLruKCache.consecState
  by_cases h1 : i < kk
  · rw [if_pos h1]
    by_cases h2 : i + 1 < kk
    · rw [if_pos h2]
      have h3 : ¬ (i + 1 ≥ kk) := by omega
      simp [KLruKCache.put, KLruKCache.aset, KLruCache.get, KLruCache.getValue,
        KLruCache.put, KLruCache.addNewNode, KLruCache.evictLeastRecent,
        KLruCache.remove, KLruCache.init, alookup, aerase, aupdate,
        hC, hhc, h3, Nat.le_zero]
    · rw [if_neg h2]
      have h3 : i + 1 ≥ kk := by omega
      simp [KLruKCache.put, KLruKCache.aset, KLruCache.get, KLruCache.getValue,
        KLruCache.put, KLruCache.addNewNode, KLruCache.evictLeastRecent,
        KLruCache.remove, KLruCache.init, alookup, aerase, aupdate,
        hC, hhc, h3, Nat.le_zero]
  · rw [if_neg h1]
    have h2 : ¬ (i + 1 < kk) := by omega
    rw [if_neg h2]
    simp [KLruKCache.put, KLruKCache.aset, KLruCache.get, KLruCache.getValue,
      KLruCache.put, KLruCache.addNewNode, KLruCache.evictLeastRecent,
      KLruCache.remove, KLruCache.init, alookup, aerase, aupdate,
      hC, hhc, Nat.le_zero]

theorem KLruKCache.consec_get {C hc kk k : Nat} (hC : ¬ C = 0) (hhc : ¬ hc = 0)
    {i : Nat} (v : Nat) :
    (KLruKCache.get k (KLruKCache.consecState C hc kk k i v)).1 =
      if i + 1 ≥ kk then some v else none := by
  unfold KLruKCache.consecState
  by_cases h1 : i < kk
  · rw [if_pos h1]
    by_cases h2 : i + 1 ≥ kk
    · rw [if_pos h2]
      simp [KLruKCache.get, KLruCache.get, KLruCache.getValue, KLruCache.put,
        KLruCache.addNewNode, KLruCache.evictLeastRecent, KLruCache.remove,
        KLruCache.init, alookup, aerase, aupdate, hC, hhc, h2, Nat.le_zero]
    · rw [if_neg h2]
      simp [KLruKCache.get, KLruCache.get, KLruCache.getValue, KLruCache.put,
        KLruCache.addNewNode, KLruCache.evictLeastRecent, KLruCache.remove,
        KLruCache.init, alookup, aerase, aupdate, hC, hhc, h2, Nat.le_zero]
  · rw [if_neg h1]
    have h2 : i + 1 ≥ kk := by omega
    rw [if_pos h2]
    simp [KLruKCache.get, KLruCache.get, KLruCache.getValue, KLruCache.put,
      KLruCache.addNewNode, KLruCache.evictLeastRecent, KLruCache.remove,
      KLruCache.init, alookup, aerase, aupdate, hC, hhc, Nat.le_zero]

theorem KLruKCache.consec_run {C hc kk k : Nat} (hC : ¬ C = 0) (hhc : ¬ hc = 0)
    (v : Nat) (vs : List Nat) :
    KLruKCache.run (List.map (KLruKCache.Op.put k) (v :: vs))
        (KLruKCache.init C hc kk) =
      KLruKCache.consecState C hc kk k (vs.length + 1) (vs.getLastD v) := by
  have haux : ∀ (ws : List Nat) (i : Nat) (u : Nat),
      KLruKCache.run (List.map (KLruKCache.Op.put k) ws)
        (KLruKCache.consecState C hc kk k i u) =
      KLruKCache.consecState C hc kk k (i + ws.length) (ws.getLastD u) := by
    intro ws
    induction ws with
    | nil => intro i u; rfl
    | cons w t ih =>
      intro i u
      show KLruKCache.run (List.map (KLruKCache.Op.put k) t)
          (KLruKCache.put k w (KLruKCache.consecState C hc kk k i u)) = _
      rw [KLruKCache.consec_put hC hhc u w, ih, List.getLastD_cons,
        show i + (w :: t).length = i + 1 + t.length from by
          simp only [List.length_cons]
          omega]
  show KLruKCache.run (List.map (KLruKCache.Op.put k) vs)
      (KLruKCache.put k v (KLruKCache.init C hc kk)) = _
  rw [KLruKCache.consec_base hC hhc v, haux,
    show 1 + vs.length = vs.length + 1 from by omega]

theorem KLruCache.lru_step_capacity (op : KLruCache.Op) (s : KLruCache.State) :
    (KLruCache.step op s).capacity = s.capacity := by
  cases op with
  | put k v =>
    show (KLruCache.put k v s).capacity = s.capacity
    unfold KLruCache.put KLruCache.addNewNode KLruCache.evictLeastRecent
    split
    · rfl
    · split
      · rfl
      · dsimp only
        split <;> rfl
  | get k =>
    show (KLruCache.get k s).2.capacity = s.capacity
    unfold KLruCache.get
    split <;> rfl
  | remove k => rfl

theorem KLruCache.lru_run_capacity (ops : List KLruCache.Op) (s : KLruCache.State) :
    (KLruCache.run ops s).capacity = s.capacity := by
  induction ops generalizing s with
  | nil => rfl
  | cons op t ih => exact (ih _).trans (KLruCache.lru_step_capacity op s)

theorem KLfuCache.updateMinFreq_capacity (s : KLfuCache.State) :
    (KLfuCache.updateMinFreq s).capacity = s.capacity := by
  unfold KLfuCache.updateMinFreq
  rfl

theorem KLfuCache.handleOver_capacity (s : KLfuCache.State) :
    (KLfuCache.handleOverMaxAverageNum s).capacity = s.capacity := by
  unfold KLfuCache.handleOverMaxAverageNum
  split
  · rfl
  · exact KLfuCache.updateMinFreq_capacity _

theorem KLfuCache.addFreqNum_capacity (s : KLfuCache.State) :
    (KLfuCache.addFreqNum s).capacity = s.capacity := by
  unfold KLfuCache.addFreqNum
  dsimp only
  split <;> split
  · exact KLfuCache.handleOver_capacity _
  · rfl
  · exact KLfuCache.handleOver_capacity _
  · rfl

theorem KLfuCache.kickOut_capacity (s : KLfuCache.State) :
    (KLfuCache.kickOut s).capacity = s.capacity := by
  unfold KLfuCache.kickOut KLfuCache.decreaseFreqNum
  split <;> rfl

theorem KLfuCache.getInternal_capacity (k : Nat) (n : KLfuCache.LfuNode)
    (s : KLfuCache.State) :
    (KLfuCache.getInternal k n s).capacity = s.capacity := by
  unfold KLfuCache.getInternal
  dsimp only
  split
  · exact KLfuCache.addFreqNum_capacity _
  · exact KLfuCache.addFreqNum_capacity _

theorem KLfuCache.putInternal_capacity (k v : Nat) (s : KLfuCache.State) :
    (KLfuCache.putInternal k v s).capacity = s.capacity := by
  unfold KLfuCache.putInternal
  dsimp only
  show (KLfuCache.addFreqNum _).capacity = s.capacity
  rw [KLfuCache.addFreqNum_capacity]
  split
  · exact KLfuCache.kickOut_capacity s
  · rfl

theorem KLfuCache.lfu_step_capacity (op : KLfuCache.Op) (s : KLfuCache.State) :
    (KLfuCache.step op s).capacity = s.capacity := by
  cases op with
  | put k v =>
    show (KLfuCache.put k v s).capacity = s.capacity
    unfold KLfuCache.put
    split
    · rfl
    · split
      · exact KLfuCache.getInternal_capacity _ _ _
      · exact KLfuCache.putInternal_capacity _ _ _
  | get k =>
    show (KLfuCache.get k s).2.capacity = s.capacity
    unfold KLfuCache.get
    split
    · exact KLfuCache.getInternal_capacity _ _ _
    · rfl
  | purge => rfl

theorem KLfuCache.lfu_run_capacity (ops : List KLfuCache.Op) (s : KLfuCache.State) :
    (KLfuCache.run ops s).capacity = s.capacity := by
  induction ops generalizing s with
  | nil => rfl
  | cons op t ih => exact (ih _).trans (KLfuCache.lfu_step_capacity op s)

theorem KLfuCache.put_allval_of_cap {k vn : Nat} {s : KLfuCache.State}
    (hc : ¬ s.capacity = 0) (hnd : NodupK s.nodeMap) :
    AllVal KLfuCache.LfuNode.value k vn (KLfuCache.put k vn s).nodeMap := by
  unfold KLfuCache.put
  rw [if_neg hc]
  cases hk : alookup k s.nodeMap with
  | some n =>
    exact KLfuCache.getInternal_allval
      (allval_aupdate_self_of_nodup hnd rfl) (fun _ => rfl)
  | none => exact KLfuCache.putInternal_allval_self hk

/-- C1 (put–get coherence, corrected): for the LRU, LFU and ARC policies the
claim holds as stated — after `put(k, vn)` on a positive-capacity cache,
any sequence of operations that contains no further `put` of `k` and leaves
`k` in the main index (no eviction removed it) makes `get(k)` return `vn`
(for ARC: with `k` off both ghost lists and the usual capacity side
conditions, a hit in either half returns `vn`).  For the LRU-K policy the
claim's "in particular" part fails: after `n` consecutive `put(k, ·)` on a
fresh cache with positive main and history capacities, the subsequent
`get(k)` returns the last value exactly when `n + 1 ≥ k_` (the `get` itself
supplies the `k_`-th observation that admits the pending value) and returns
`none` when `n + 1 < k_`. -/
theorem C1_put_get_coherence :
    (∀ (C k vn : Nat) (pre post : List KLruCache.Op),
      ¬ C = 0 →
      (∀ v, KLruCache.Op.put k v ∉ post) →
      ∀ w, alookup k (KLruCache.run post
          (KLruCache.put k vn (KLruCache.run pre (KLruCache.init C)))).entries = some w →
        (KLruCache.get k (KLruCache.run post
          (KLruCache.put k vn (KLruCache.run pre (KLruCache.init C))))).1 = some vn) ∧
    (∀ (C M k vn : Nat) (pre post : List KLfuCache.Op),
      ¬ C = 0 →
      (∀ v, KLfuCache.Op.put k v ∉ post) →
      ∀ n, alookup k (KLfuCache.run post
          (KLfuCache.put k vn (KLfuCache.run pre (KLfuCache.init C M)))).nodeMap
            = some n →
        (KLfuCache.get k (KLfuCache.run post
          (KLfuCache.put k vn (KLfuCache.run pre (KLfuCache.init C M))))).1 = some vn) ∧
    (∀ (C T k vn : Nat) (pre post : List KArcCache.Op),
      (∀ v, KArcCache.Op.put k v ∉ post) →
      ¬ (KArcCache.run pre (KArcCache.init C T)).lru.capacity = 0 →
      alookup k (KArcCache.run pre (KArcCache.init C T)).lru.ghost = none →
      alookup k (KArcCache.run pre (KArcCache.init C T)).lfu.ghost = none →
      (alookup k (KArcCache.run pre (KArcCache.init C T)).lfu.main ≠ none →
        ¬ (KArcCache.run pre (KArcCache.init C T)).lfu.capacity = 0) →
      alookup k (KArcCache.run post (KArcCache.put k vn
          (KArcCache.run pre (KArcCache.init C T)))).lru.ghost = none →
      alookup k (KArcCache.run post (KArcCache.put k vn
          (KArcCache.run pre (KArcCache.init C T)))).lfu.ghost = none →
      (alookup k (KArcCache.run post (KArcCache.put k vn
          (KArcCache.run pre (KArcCache.init C T)))).lru.main ≠ none ∨
       alookup k (KArcCache.run post (KArcCache.put k vn
          (KArcCache.run pre (KArcCache.init C T)))).lfu.main ≠ none) →
        (KArcCache.get k (KArcCache.run post (KArcCache.put k vn
          (KArcCache.run pre (KArcCache.init C T))))).1 = some vn) ∧
    (∀ (C hc kk k v : Nat) (vs : List Nat),
      ¬ C = 0 → ¬ hc = 0 →
      (KLruKCache.get k (KLruKCache.run (List.map (KLruKCache.Op.put k) (v :: vs))
          (KLruKCache.init C hc kk))).1 =
        if vs.length + 1 + 1 ≥ kk then some (vs.getLastD v) else none) := by
  refine ⟨?_, ?_, ?_, ?_⟩
  · intro C k vn pre post hC hpost w hw
    have hnd : NodupK (KLruCache.run pre (KLruCache.init C)).entries :=
      KLruCache.lru_run_nodupk pre List.nodup_nil
    have hcap : ¬ (KLruCache.run pre (KLruCache.init C)).capacity = 0 := by
      rw [KLruCache.lru_run_capacity]
      exact hC
    have hav : AllVal id k vn (KLruCache.run post
        (KLruCache.put k vn (KLruCache.run pre (KLruCache.init C)))).entries :=
      KLruCache.lru_run_allval post hpost (KLruCache.lru_put_allval hcap hnd)
    unfold KLruCache.get
    rw [hw]
    exact congrArg some (allval_lookup hav hw)
  · intro C M k vn pre post hC hpost n hn
    have hnd : NodupK (KLfuCache.run pre (KLfuCache.init C M)).nodeMap :=
      KLfuCache.lfu_run_nodupk pre List.nodup_nil
    have hcap : ¬ (KLfuCache.run pre (KLfuCache.init C M)).capacity = 0 := by
      rw [KLfuCache.lfu_run_capacity]
      exact hC
    have hav : AllVal KLfuCache.LfuNode.value k vn (KLfuCache.run post
        (KLfuCache.put k vn (KLfuCache.run pre (KLfuCache.init C M)))).nodeMap :=
      KLfuCache.lfu_run_allval post hpost (KLfuCache.put_allval_of_cap hcap hnd)
    unfold KLfuCache.get
    rw [hn]
    exact congrArg some (allval_lookup hav hn)
  · intro C T k vn pre post hpost hc1 hg1p hg2p hc2 hg1 hg2 hm
    obtain ⟨h3, h4⟩ :=
      @KArcCache.arc_run_nodupk pre (KArcCache.init C T) List.nodup_nil List.nodup_nil
    have hcg : (KArcCache.checkGhostCaches k
        (KArcCache.run pre (KArcCache.init C T))).2
          = KArcCache.run pre (KArcCache.init C T) := by
      rw [KArcCache.checkGhostCaches_none hg1p hg2p]
    have hinv0 : KArcCache.MainInv k vn
        (KArcCache.put k vn (KArcCache.run pre (KArcCache.init C T))) :=
      KArcCache.arc_put_estab h3 h4 (by rw [hcg]; exact hc1) (by rw [hcg]; exact hc2)
    have hinv := KArcCache.run_inv post hpost hinv0
    exact KArcCache.get_hit hg1 hg2 hinv hm
  · intro C hc kk k v vs hC hhc
    rw [KLruKCache.consec_run hC hhc v vs, KLruKCache.consec_get hC hhc]

/-- C1 witness: each conjunct of the coherence theorem applied at a concrete
input — a single `put(1, 10)` on a fresh capacity-2 cache of each policy
(LRU-K: capacity 1, history capacity 3, `k_ = 2`), with empty `pre` and
`post` operation sequences, after which `get(1)` returns 10. -/
theorem C1_put_get_coherence_witness :
    (KLruCache.get 1 (KLruCache.run []
      (KLruCache.put 1 10 (KLruCache.run [] (KLruCache.init 2))))).1 = some 10 ∧
    (KLfuCache.get 1 (KLfuCache.run []
      (KLfuCache.put 1 10 (KLfuCache.run [] (KLfuCache.init 2 10))))).1 = some 10 ∧
    (KArcCache.get 1 (KArcCache.run []
      (KArcCache.put 1 10 (KArcCache.run [] (KArcCache.init 2 2))))).1 = some 10 ∧
    (KLruKCache.get 1 (KLruKCache.run (List.map (KLruKCache.Op.put 1) [10])
      (KLruKCache.init 1 3 2))).1 = some 10 :=
  ⟨C1_put_get_coherence.1 2 1 10 [] [] (by decide) (fun v hv => nomatch hv)
     10 (by decide),
   C1_put_get_coherence.2.1 2 10 1 10 [] [] (by decide) (fun v hv => nomatch hv)
     ⟨10, 1⟩ (by decide),
   C1_put_get_coherence.2.2.1 2 2 1 10 [] [] (fun v hv => nomatch hv) (by decide)
     (by decide) (by decide) (fun _ => by decide) (by decide) (by decide)
     (Or.inl (by decide)),
   (C1_put_get_coherence.2.2.2 1 3 2 1 10 [] (by decide) (by decide)).trans
     (by decide)⟩

/-- C1 counterexample: the "in particular" part of the claim fails for the
LRU-K policy.  With `k_ = 3`, capacity 1 and history capacity 3, the single
`put(1, 10)` is the last (indeed only) put of key 1 and no eviction ever
runs, yet the subsequent `get(1)` returns `none`, not 10: the key has been
seen only twice (the put and the get), which is below the admission
threshold, so its value is still pending and the main cache is empty. -/
theorem C1_counterexample_lruk_first_get_misses :
    (KLruKCache.get 1 (KLruKCache.put 1 10 (KLruKCache.init 1 3 3))).1 = none := by
  decide
